import Mathlib

/-!
Verification development for the clarity-agent-cli repository.

This file shallowly embeds the event-delivery core of the CLI:
the runtime event client (src/pkg/runtime/client.ts), the runtime chat
orchestrator (src/cmd/clarity-agent.ts), the HTTP broker service
(src/pkg/http/server.ts), and the remote broker client
(src/pkg/http/client.ts).  JavaScript strings are modelled as Lean
strings; JavaScript string builtins (trim, trimStart, toLowerCase,
startsWith, slice) are re-implemented below over character lists so that
closed instances evaluate inside the kernel.  JavaScript numbers are
modelled as integers plus the non-finite values NaN and plus/minus
Infinity; the claims only involve integral values.
-/

/-- Whitespace characters recognised by the JavaScript trim family
(restricted to the ASCII whitespace actually occurring in this code base). -/
def jsWsChar (c : Char) : Bool :=
  c = ' ' || c = '\t' || c = '\n' || c = '\r'

/-- Model of JavaScript String.prototype.trimStart on character lists. -/
def trimStartChars (cs : List Char) : List Char :=
  cs.dropWhile jsWsChar

/-- Model of JavaScript String.prototype.trim on character lists. -/
def trimChars (cs : List Char) : List Char :=
  ((cs.dropWhile jsWsChar).reverse.dropWhile jsWsChar).reverse

/-- Model of JavaScript String.prototype.trim. -/
def jsTrim (s : String) : String :=
  String.mk (trimChars s.data)

/-- Model of JavaScript String.prototype.trimStart. -/
def jsTrimStart (s : String) : String :=
  String.mk (trimStartChars s.data)

/-- ASCII lower-casing of one character, as used by toLowerCase on the
ASCII status strings handled in this code base. -/
def jsLowerChar (c : Char) : Char :=
  if 'A' ≤ c && c ≤ 'Z' then Char.ofNat (c.toNat + 32) else c

/-- Model of JavaScript String.prototype.toLowerCase on ASCII input. -/
def jsToLower (s : String) : String :=
  String.mk (s.data.map jsLowerChar)

/-- Does the character list start with the given pattern? -/
def startsWithChars : List Char → List Char → Bool
  | [], _ => true
  | _ :: _, [] => false
  | p :: ps, c :: cs => p = c && startsWithChars ps cs

/-- Model of JavaScript String.prototype.startsWith. -/
def jsStartsWith (s pat : String) : Bool :=
  startsWithChars pat.data s.data

/-- Model of JavaScript String.prototype.slice with a start index only. -/
def jsSliceFrom (s : String) (n : Nat) : String :=
  String.mk (s.data.drop n)

/-- Does the string contain the given character? -/
def containsChar (s : String) (c : Char) : Bool :=
  s.data.contains c

/-- A JavaScript number: an integral finite value, or one of the
non-finite values. Non-integral finite values never occur in the claims. -/
inductive JsNum where
  | fin (n : Int)
  | nan
  | inf
  | negInf
deriving DecidableEq, Repr

/-- A JSON value as produced by JSON.parse, also standing in for the
`unknown` payloads that the client code inspects field by field. -/
inductive Json where
  | null
  | bool (b : Bool)
  | num (v : JsNum)
  | str (s : String)
  | arr (items : List Json)
  | obj (fields : List (String × Json))

/-- asRecord from src/pkg/runtime/client.ts: a non-object (or null) input
becomes the empty record; a JavaScript array is itself an object whose
enumerable keys are its decimal indices. -/
def asRecord : Json → List (String × Json)
  | .obj fields => fields
  | .arr items => (items.enum).map (fun p => (toString p.1, p.2))
  | _ => []

/-- Field access on a record (undefined is modelled as none). -/
def recGet (fields : List (String × Json)) (key : String) : Option Json :=
  List.lookup key fields

/-- asString from src/pkg/runtime/client.ts: non-strings map to undefined,
strings are trimmed and blank results map to undefined. -/
def asString (input : Option Json) : Option String :=
  match input with
  | some (.str s) =>
      let trimmed := jsTrim s
      if trimmed.length > 0 then some trimmed else none
  | _ => none

/-- A structurally validated runtime run event
(interface RuntimeRunEvent in src/pkg/runtime/client.ts). -/
structure RuntimeRunEvent where
  seq : Option Int
  «at» : String
  kind : String
  level : String
  message : String
  serviceId : Option String
  data : List (String × Json)

/-- new Date(0).toISOString(), the default for a missing `at` field. -/
def epochIso : String := "1970-01-01T00:00:00.000Z"

/-- parseRuntimeRunEvent from src/pkg/runtime/client.ts. -/
def parseRuntimeRunEvent (input : Json) : Option RuntimeRunEvent :=
  let row := asRecord input
  match asString (recGet row "kind") with
  | none => none
  | some kind =>
      let seq : Option Int :=
        match recGet row "seq" with
        | some (.num (.fin n)) => some n
        | _ => none
      some
        { seq := seq
          «at» := (asString (recGet row "at")).getD epochIso
          kind := kind
          level := (asString (recGet row "level")).getD "info"
          message := (asString (recGet row "message")).getD kind
          serviceId := asString (recGet row "serviceId")
          data :=
            match recGet row "data" with
            | some d => asRecord d
            | none => [] }

/-- isTerminalRunStatus from src/pkg/runtime/client.ts. -/
def isTerminalRunStatus (status : String) : Bool :=
  let normalized := jsToLower (jsTrim status)
  normalized = "completed" || normalized = "failed" || normalized = "cancelled"

/-- The opening brace character. -/
def lbraceChar : Char := Char.ofNat 123

/-- The closing brace character. -/
def rbraceChar : Char := Char.ofNat 125

/-- Skip JSON whitespace. -/
def skipWs (cs : List Char) : List Char :=
  cs.dropWhile jsWsChar

/-- Parse the body of a JSON string after the opening quote has been
consumed; returns the decoded characters and the remaining input.
Models the escape sequences actually used in this code base; the rarely
used unicode escapes are not modelled. -/
def parseJsonStringBody : List Char → Option (List Char × List Char)
  | [] => none
  | '"' :: cs => some ([], cs)
  | '\\' :: e :: cs =>
      let esc : Option Char :=
        if e = '"' then some '"'
        else if e = '\\' then some '\\'
        else if e = '/' then some '/'
        else if e = 'n' then some '\n'
        else if e = 't' then some '\t'
        else if e = 'r' then some '\r'
        else if e = 'b' then some (Char.ofNat 8)
        else if e = 'f' then some (Char.ofNat 12)
        else none
      match esc with
      | none => none
      | some ch =>
          match parseJsonStringBody cs with
          | some p => some (ch :: p.1, p.2)
          | none => none
  | c :: cs =>
      match parseJsonStringBody cs with
      | some p => some (c :: p.1, p.2)
      | none => none

/-- Decimal digits to a natural number. -/
def digitsToNat (ds : List Char) : Nat :=
  ds.foldl (fun a c => a * 10 + (c.toNat - 48)) 0

/-- Parse a JSON number (integral values only; this code base never
produces fractional literals). -/
def parseJsonNumber (cs : List Char) : Option (Json × List Char) :=
  let sign : Bool × List Char :=
    match cs with
    | '-' :: t => (true, t)
    | _ => (false, cs)
  let ds := sign.2.takeWhile Char.isDigit
  let rest := sign.2.dropWhile Char.isDigit
  if ds.isEmpty then none
  else
    let n : Int := Int.ofNat (digitsToNat ds)
    some (.num (.fin (if sign.1 then -n else n)), rest)

mutual

/-- Model of the JavaScript builtin JSON.parse: parse one JSON value.
The fuel argument bounds nesting depth and is always instantiated with
the input length, which suffices because every recursive call consumes
at least one character. -/
def parseJsonValue : Nat → List Char → Option (Json × List Char)
  | 0, _ => none
  | fuel + 1, input =>
      match skipWs input with
      | [] => none
      | c :: rest =>
          if c = 'n' then
            if startsWithChars ['u', 'l', 'l'] rest then some (.null, rest.drop 3) else none
          else if c = 't' then
            if startsWithChars ['r', 'u', 'e'] rest then some (.bool true, rest.drop 3) else none
          else if c = 'f' then
            if startsWithChars ['a', 'l', 's', 'e'] rest then some (.bool false, rest.drop 4)
            else none
          else if c = '"' then
            match parseJsonStringBody rest with
            | some p => some (.str (String.mk p.1), p.2)
            | none => none
          else if c = lbraceChar then parseJsonObjectFields fuel rest
          else if c = '[' then parseJsonArrayItems fuel rest
          else if c = '-' || c.isDigit then parseJsonNumber (c :: rest)
          else none

/-- Parse the fields of a JSON object after the opening brace. -/
def parseJsonObjectFields : Nat → List Char → Option (Json × List Char)
  | 0, _ => none
  | fuel + 1, input =>
      match skipWs input with
      | [] => none
      | c :: rest =>
          if c = rbraceChar then some (.obj [], rest)
          else if c = '"' then
            match parseJsonStringBody rest with
            | none => none
            | some (keyChars, afterKey) =>
                match skipWs afterKey with
                | ':' :: afterColon =>
                    match parseJsonValue fuel afterColon with
                    | none => none
                    | some (v, afterVal) =>
                        match skipWs afterVal with
                        | ',' :: afterComma =>
                            match parseJsonObjectFields fuel afterComma with
                            | some (.obj fields, out) =>
                                some (.obj ((String.mk keyChars, v) :: fields), out)
                            | _ => none
                        | c2 :: out =>
                            if c2 = rbraceChar then
                              some (.obj [(String.mk keyChars, v)], out)
                            else none
                        | [] => none
                | _ => none
          else none

/-- Parse the items of a JSON array after the opening bracket. -/
def parseJsonArrayItems : Nat → List Char → Option (Json × List Char)
  | 0, _ => none
  | fuel + 1, input =>
      match skipWs input with
      | [] => none
      | c :: rest =>
          if c = ']' then some (.arr [], rest)
          else
            match parseJsonValue fuel (c :: rest) with
            | none => none
            | some (v, afterVal) =>
                match skipWs afterVal with
                | ',' :: afterComma =>
                    match parseJsonArrayItems fuel afterComma with
                    | some (.arr items, out) => some (.arr (v :: items), out)
                    | _ => none
                | ']' :: out => some (.arr [v], out)
                | _ => none

end

/-- Model of JSON.parse on a whole string: none models a thrown
SyntaxError. -/
def parseJson (s : String) : Option Json :=
  match parseJsonValue (s.length + 1) s.data with
  | some (v, rest) => if (skipWs rest).isEmpty then some v else none
  | none => none

/-- JavaScript Array.prototype.join with separator newline, as used on the
accumulated data lines of one SSE event. -/
def joinNl : List String → String
  | [] => ""
  | [s] => s
  | s :: rest => s ++ "\n" ++ joinNl rest

/-- Remove one trailing carriage return, as the line loop in
streamRuntimeEvents does before interpreting a line. -/
def stripCr (cs : List Char) : List Char :=
  if cs.getLast? = some '\r' then cs.dropLast else cs

/-- The per-connection accumulation state of streamRuntimeEvents apart
from the text buffer: the pending data lines and the events already
handed to the consumer callback, in order. -/
structure SseAux (α : Type) where
  dataLines : List String
  events : List α

/-- flushEvent from streamRuntimeEvents: with no pending data lines do
nothing; otherwise join the data lines with a newline, clear them, decode
the payload and append the event when decoding succeeds.  A decoding
failure (the catch branch around JSON.parse) is silent. -/
def flushEvent (decode : String → Option α) (aux : SseAux α) : SseAux α :=
  if aux.dataLines.isEmpty then aux
  else
    let payload := joinNl aux.dataLines
    match decode payload with
    | some e => { dataLines := [], events := aux.events ++ [e] }
    | none => { dataLines := [], events := aux.events }

/-- The line dispatch of streamRuntimeEvents: a blank line terminates the
pending event, a line starting with a colon is a comment, a line starting
with data: contributes its remainder trimmed of leading whitespace, and
any other line is ignored. -/
def handleLine (decode : String → Option α) (aux : SseAux α) : List Char → SseAux α
  | [] => flushEvent decode aux
  | ':' :: _ => aux
  | 'd' :: 'a' :: 't' :: 'a' :: ':' :: rest =>
      { aux with dataLines := aux.dataLines ++ [String.mk (trimStartChars rest)] }
  | _ => aux

/-- Split off the first newline-terminated line of the buffer, mirroring
buffer.indexOf of the newline followed by the two slices. -/
def takeLine : List Char → Option (List Char × List Char)
  | [] => none
  | c :: cs =>
      if c = '\n' then some ([], cs)
      else
        match takeLine cs with
        | none => none
        | some p => some (c :: p.1, p.2)

/-- The inner while loop of streamRuntimeEvents, fuelled so that it is
structurally recursive: repeatedly extract newline-terminated lines from
the buffer and dispatch each (with a trailing carriage return removed),
returning the updated accumulation state and the remaining partial line.
Each iteration consumes at least one buffer character, so any fuel of at
least the buffer length makes the zero-fuel case unreachable. -/
def drainSseGo (decode : String → Option α) : Nat → SseAux α → List Char →
    SseAux α × List Char
  | 0, aux, buf => (aux, buf)
  | fuel + 1, aux, buf =>
      match takeLine buf with
      | none => (aux, buf)
      | some p => drainSseGo decode fuel (handleLine decode aux (stripCr p.1)) p.2

/-- The inner while loop of streamRuntimeEvents, with sufficient fuel. -/
def drainSse (decode : String → Option α) (aux : SseAux α) (buf : List Char) :
    SseAux α × List Char :=
  drainSseGo decode buf.length aux buf

/-- The whole mutable state of one streamRuntimeEvents call. -/
structure SseState (α : Type) where
  aux : SseAux α
  buffer : List Char

/-- The initial stream state: empty buffer, no data lines, no events. -/
def sseInit {α : Type} : SseState α :=
  { aux := { dataLines := [], events := [] }, buffer := [] }

/-- One reader.read chunk: append the decoded text to the buffer and
extract every complete line. -/
def feedChunk (decode : String → Option α) (st : SseState α) (chunk : List Char) :
    SseState α :=
  let r := drainSse decode st.aux (st.buffer ++ chunk)
  { aux := r.1, buffer := r.2 }

/-- End of stream: a non-empty leftover buffer is interpreted as one last
line (only a data: line contributes), then the pending event is flushed
exactly once.  Returns the full event sequence handed to the consumer. -/
def finishStream (decode : String → Option α) (st : SseState α) : List α :=
  let aux :=
    if st.buffer.isEmpty then st.aux
    else
      match stripCr st.buffer with
      | 'd' :: 'a' :: 't' :: 'a' :: ':' :: rest =>
          { st.aux with dataLines := st.aux.dataLines ++ [String.mk (trimStartChars rest)] }
      | _ => st.aux
  (flushEvent decode aux).events

/-- Feed a whole chunk sequence through streamRuntimeEvents and close the
stream: the resulting event sequence. -/
def runSseChunks (decode : String → Option α) (chunks : List (List Char)) : List α :=
  finishStream decode (chunks.foldl (feedChunk decode) sseInit)

/-- The payload decoder used by streamRuntimeEvents: JSON.parse inside a
try block, then parseRuntimeRunEvent. -/
def decodeRuntimePayload (payload : String) : Option RuntimeRunEvent :=
  match parseJson payload with
  | none => none
  | some j => parseRuntimeRunEvent j

/-- asNonEmptyDataString from src/cmd/clarity-agent.ts: the first listed
key whose value in the data map is a string with non-blank trim, trimmed. -/
def asNonEmptyDataString (data : List (String × Json)) : List String → Option String
  | [] => none
  | k :: ks =>
      match recGet data k with
      | some (.str s) =>
          if (jsTrim s).length > 0 then some (jsTrim s)
          else asNonEmptyDataString data ks
      | _ => asNonEmptyDataString data ks

/-- Replace every maximal run of whitespace by one space (the JavaScript
regex replace of whitespace runs used by renderRuntimeEvent). -/
def collapseWsGo : Bool → List Char → List Char
  | _, [] => []
  | prevWs, c :: cs =>
      if jsWsChar c then
        if prevWs then collapseWsGo true cs else ' ' :: collapseWsGo true cs
      else c :: collapseWsGo false cs

/-- Collapse whitespace runs in a string to single spaces. -/
def collapseWs (s : String) : String :=
  String.mk (collapseWsGo false s.data)

/-- shortTimeLabel from src/cmd/clarity-agent.ts.  The JavaScript Date
builtin is modelled by its unparseable branch, which returns the value
unchanged; no claim inspects the rendered timestamp. -/
def shortTimeLabel (value : String) : String :=
  value

/-- eventMarker from src/cmd/clarity-agent.ts: the dedup key of one
event.  A parsed event's seq is always a finite number (the
Number.isFinite re-check in the source), so the numeric branch applies
exactly when seq is present. -/
def eventMarker (e : RuntimeRunEvent) : String :=
  match e.seq with
  | some n => "seq:" ++ toString n
  | none => e.«at» ++ "|" ++ e.kind ++ "|" ++ e.message

/-- renderRuntimeEvent from src/cmd/clarity-agent.ts. -/
def renderRuntimeEvent (event : RuntimeRunEvent) (defaultAgent : String) : String :=
  let message :=
    ((asNonEmptyDataString event.data ["message", "text", "input"]).getD
      ((asNonEmptyDataString event.data ["reason", "waitingReason", "error"]).getD
        event.message))
  let compactMessage := jsTrim (collapseWs message)
  let eventAgent :=
    (asNonEmptyDataString event.data ["agent", "agentId", "agent_id"]).getD defaultAgent
  let stamp := shortTimeLabel event.«at»
  if event.kind = "agent.hitl_input" || event.kind = "agent.human_message" then
    "[" ++ stamp ++ "] you: " ++ compactMessage
  else
    "[" ++ stamp ++ "] " ++ eventAgent ++ " (" ++ event.kind ++ "): " ++ compactMessage

/-- runIdFromEventData from src/cmd/clarity-agent.ts. -/
def runIdFromEventData (e : RuntimeRunEvent) : Option String :=
  asNonEmptyDataString e.data ["runId", "run_id"]

/-- isTerminalRunEventKind from src/cmd/clarity-agent.ts. -/
def isTerminalRunEventKind (kind : String) : Bool :=
  kind = "agent.run_completed" || kind = "agent.run_failed" || kind = "agent.run_cancelled"

/-- The runtime-chat orchestrator state consulted by recordEvent: the
seen dedup markers, the rendered output lines in order, and the terminal
event kind observed via the stream, if any. -/
structure ChatState where
  seen : List String
  out : List String
  terminalByStream : Option String

/-- The orchestrator state at chat start. -/
def chatInit : ChatState :=
  { seen := [], out := [], terminalByStream := none }

/-- recordEvent from the runtime-chat action in src/cmd/clarity-agent.ts:
drop events of other runs, drop events whose dedup marker was already
seen, otherwise remember the marker, render exactly one line, and record
a terminal event kind.  The boolean reports whether a line was written. -/
def recordEvent (runId agent : String) (st : ChatState) (e : RuntimeRunEvent) :
    ChatState × Bool :=
  if runIdFromEventData e ≠ some runId then (st, false)
  else
    let marker := eventMarker e
    if st.seen.contains marker then (st, false)
    else
      ({ seen := marker :: st.seen
         out := st.out ++ [renderRuntimeEvent e agent]
         terminalByStream :=
           if isTerminalRunEventKind e.kind then some e.kind else st.terminalByStream },
        true)

/-- Deliver a sequence of events (from the stream, the poll fallback, or
both interleaved) to recordEvent. -/
def deliverEvents (runId agent : String) (st : ChatState) (es : List RuntimeRunEvent) :
    ChatState :=
  es.foldl (fun s e => (recordEvent runId agent s e).1) st

/-- Number of rendered lines attributed to events with the given dedup
marker while delivering the sequence. -/
def markerWrites (runId agent : String) (st : ChatState) (m : String) :
    List RuntimeRunEvent → Nat
  | [] => 0
  | e :: es =>
      let r := recordEvent runId agent st e
      (if r.2 && (eventMarker e == m) then 1 else 0) + markerWrites runId agent r.1 m es

/-- The environment's answer to one fallback poll attempt: how many new
lines flushEvents rendered, and the run status the status poll returned. -/
structure PollObs where
  emitted : Nat
  status : Option String

/-- One recorded poll attempt of the fallback loop. -/
structure PollStep where
  sleptBefore : Bool
  emitted : Nat
  status : Option String

/-- The post-submit fallback poll loop of the runtime-chat action
(attempt counter, hadNewEvents flag): sleep before every attempt but the
first, flush events, poll the status, stop on a terminal status or once a
cycle yields zero new events after some earlier cycle yielded any. -/
def pollLoopGo (env : Nat → PollObs) : Nat → Bool → Nat → List PollStep
  | 0, _, _ => []
  | remaining + 1, hadNewEvents, attempt =>
      let obs := env attempt
      let step : PollStep :=
        { sleptBefore := attempt > 0, emitted := obs.emitted, status := obs.status }
      let hadNewEvents' := hadNewEvents || obs.emitted > 0
      let stop :=
        (match obs.status with
          | some s => isTerminalRunStatus s
          | none => false) ||
        (hadNewEvents' && obs.emitted == 0)
      step :: (if stop then [] else pollLoopGo env remaining hadNewEvents' (attempt + 1))

/-- The fallback poll loop as entered after submitting human input while
the stream is unhealthy: up to 6 attempts, starting with no events seen. -/
def pollAfterSubmit (env : Nat → PollObs) : List PollStep :=
  pollLoopGo env 6 false 0

/-- Attempt i of the fallback loop observed a terminal run status. -/
def envTerminalAt (env : Nat → PollObs) (i : Nat) : Prop :=
  ∃ s, (env i).status = some s ∧ isTerminalRunStatus s = true

/-- The early-stop condition of the fallback poll loop at attempt i: a
terminal status was observed, or the attempt emitted nothing while an
earlier attempt of the same loop emitted something. -/
def envStop (env : Nat → PollObs) (i : Nat) : Prop :=
  envTerminalAt env i ∨ ((env i).emitted = 0 ∧ ∃ j < i, (env j).emitted > 0)

/-- One row of the broker state snapshot
(BrokerStateRow in the spec; produced by listBrokerState). -/
structure BrokerStateRow where
  key : String
  answered : Bool
  questionMtimeMs : Int
  timestamp : Int

/-- An event written on the /events server-sent-event stream. -/
inductive BrokerSseEvent where
  | newQuestion (key : String)
  | answeredEvent (key : String)
deriving DecidableEq

/-- The raw key carried by a stream event. -/
def brokerEventKey : BrokerSseEvent → String
  | .newQuestion k => k
  | .answeredEvent k => k

/-- The body of the per-key branch inside the setInterval callback of the
/events route (src/pkg/http/server.ts): events written for one current
row given the baseline row stored under the same safe key. -/
def diffRowEvents (prev : Option BrokerStateRow) (row : BrokerStateRow) :
    List BrokerSseEvent :=
  match prev with
  | none =>
      .newQuestion row.key :: (if row.answered then [.answeredEvent row.key] else [])
  | some p =>
      (if !p.answered && row.answered then [.answeredEvent row.key] else []) ++
        (if row.questionMtimeMs > p.questionMtimeMs then [.newQuestion row.key] else [])

/-- One tick of the SSE reconciliation loop: iterate over the entries of
the current snapshot in order, appending the events of each key. -/
def tickEvents (previous current : List (String × BrokerStateRow)) :
    List BrokerSseEvent :=
  current.foldl (fun acc kv => acc ++ diffRowEvents (List.lookup kv.1 previous) kv.2) []

/-- The per-key diff behaviour exactly as the specification words it:
key absent previously emits new_question, plus answered when the new row
is already answered; a present key emits answered on an
unanswered-to-answered transition and new_question on a strict
questionMtimeMs increase; nothing else. -/
def specRowEvents (prev : Option BrokerStateRow) (row : BrokerStateRow) :
    List BrokerSseEvent :=
  match prev with
  | none =>
      if row.answered then [.newQuestion row.key, .answeredEvent row.key]
      else [.newQuestion row.key]
  | some p =>
      (if p.answered = false ∧ row.answered = true then [.answeredEvent row.key] else []) ++
        (if p.questionMtimeMs < row.questionMtimeMs then [.newQuestion row.key] else [])

/-- Strip the whole trailing run of slash characters
(the JavaScript regex replace of one-or-more trailing slashes). -/
def stripTrailingSlashes (s : String) : String :=
  String.mk ((s.data.reverse.dropWhile (fun c => c = '/')).reverse)

/-- Strip at most one trailing slash character
(the JavaScript regex replace of a single trailing slash). -/
def dropOneTrailingSlash (s : String) : String :=
  if s.data.getLast? = some '/' then String.mk s.data.dropLast else s

/-- The case-insensitive anchored scheme test of the normalizers. -/
def hasHttpScheme (s : String) : Bool :=
  jsStartsWith (jsToLower s) "http://" || jsStartsWith (jsToLower s) "https://"

/-- normalizeBaseUrl from src/pkg/runtime/client.ts: trim, require
non-empty, prepend the scheme when absent, strip every trailing slash. -/
def normalizeRuntimeBaseUrl (value : String) : Except String String :=
  let trimmed := jsTrim value
  if trimmed.length = 0 then .error "runtime url is required"
  else if hasHttpScheme trimmed then .ok (stripTrailingSlashes trimmed)
  else .ok (stripTrailingSlashes ("http://" ++ trimmed))

/-- normalizeBaseUrl from src/pkg/http/client.ts: same shape, but its
regex removes at most one trailing slash. -/
def normalizeBrokerBaseUrl (value : String) : Except String String :=
  let trimmed := jsTrim value
  if trimmed.length = 0 then .error "broker url is required"
  else if hasHttpScheme trimmed then .ok (dropOneTrailingSlash trimmed)
  else .ok (dropOneTrailingSlash ("http://" ++ trimmed))

/-- The common shape of both normalizers on a non-empty trimmed value,
before the trailing-slash treatment. -/
def withScheme (t : String) : String :=
  if hasHttpScheme t then t else "http://" ++ t

/-- ASCII upper-casing of one character. -/
def jsUpperChar (c : Char) : Char :=
  if 'a' ≤ c && c ≤ 'z' then Char.ofNat (c.toNat - 32) else c

/-- Model of JavaScript String.prototype.toUpperCase on ASCII input. -/
def jsToUpper (s : String) : String :=
  String.mk (s.data.map jsUpperChar)

/-- An incoming HTTP request, restricted to the parts the broker server
reads: method, path, the three token channels, and the collected body. -/
structure HttpRequest where
  method : String
  path : String
  authorization : Option String
  xClarityToken : Option String
  queryToken : Option String
  body : String

/-- The query-parameter clause of extractToken. -/
def extractTokenQuery (req : HttpRequest) : Option String :=
  match req.queryToken with
  | some q => if (jsTrim q).length > 0 then some (jsTrim q) else none
  | none => none

/-- The x-clarity-token clause of extractToken, falling back to the query
parameter. -/
def extractTokenFallback (req : HttpRequest) : Option String :=
  match req.xClarityToken with
  | some x => if (jsTrim x).length > 0 then some (jsTrim x) else extractTokenQuery req
  | none => extractTokenQuery req

/-- extractToken from src/pkg/http/server.ts: an Authorization header
starting with the Bearer marker wins (its remainder trimmed), then the
x-clarity-token header, then the token query parameter. -/
def extractToken (req : HttpRequest) : Option String :=
  match req.authorization with
  | some auth =>
      if jsStartsWith auth "Bearer " then some (jsTrim (jsSliceFrom auth 7))
      else extractTokenFallback req
  | none => extractTokenFallback req

/-- normalizeString from src/pkg/http/server.ts on an optional string. -/
def normalizeStringOpt (v : Option String) : Option String :=
  match v with
  | some s => if (jsTrim s).length > 0 then some (jsTrim s) else none
  | none => none

/-- normalizeString applied to a JSON body field (non-strings map to
null). -/
def normalizeStringJson (v : Option Json) : Option String :=
  match v with
  | some (.str s) => if (jsTrim s).length > 0 then some (jsTrim s) else none
  | _ => none

/-- A broker question as surfaced by the store to the HTTP layer. -/
structure Question where
  key : String
  question : String
  timestamp : Int
  pid : Option Int
  ageSeconds : Int
  answered : Bool

/-- The wire shape of one entry of the GET /questions response. -/
structure QuestionSummary where
  key : String
  question : String
  timestamp : Int
  pid : Option Int
  ageSeconds : Int

/-- The wire shape of the GET /questions/:key response. -/
structure QuestionState where
  status : String
  response : Option String

/-- The validated body of POST /questions. -/
structure SubmitInput where
  key : String
  question : String
  timestamp : Option Int
  pid : Option Int

/-- A store result carrying the path of a written marker file. -/
structure PathResult where
  path : String

/-- The store result of cancelQuestion. -/
structure CancelResult where
  removed : Bool

/-- The store functions the request handler consumes, as one snapshot:
the handler in src/pkg/http/server.ts only forwards to these and never
inspects the directory itself. -/
structure BrokerStore where
  listQuestions : List Question
  readQuestionState : String → QuestionState
  getQuestionByKey : String → Option Question
  submitQuestion : SubmitInput → PathResult
  answerQuestion : String → String → PathResult
  cancelQuestion : String → CancelResult

/-- The body of an HTTP response from the broker server, by route. -/
inductive ResponseBody where
  | uiPage
  | health
  | questionList (items : List QuestionSummary)
  | questionState (st : QuestionState)
  | submitOut (out : PathResult)
  | answerOut (out : PathResult)
  | cancelOut (out : CancelResult)
  | eventStream
  | errorMsg (msg : String)

/-- An HTTP response: a status code and a body. -/
structure HttpResponse where
  status : Nat
  body : ResponseBody

/-- A request-handler failure: the unguarded JSON.parse in readJsonBody
threw, so the handler rejects without writing any response. -/
inductive ServerFailure where
  | badJson (raw : String)
deriving DecidableEq

/-- readJsonBody from src/pkg/http/server.ts: join the chunks, trim, an
empty result is treated as the empty object, anything else goes through
the unguarded JSON.parse. -/
def readJsonBody (raw : String) : Except ServerFailure Json :=
  let trimmed := jsTrim raw
  if trimmed.length = 0 then .ok (.obj [])
  else
    match parseJson trimmed with
    | some j => .ok j
    | none => .error (.badJson trimmed)

/-- The GET /questions/:key path pattern (one non-empty segment with no
further slash).  decodeURIComponent is modelled as the identity; no claim
involves percent-encoded keys. -/
def matchQuestionsByKey (path : String) : Option String :=
  if jsStartsWith path "/questions/" then
    let rest := jsSliceFrom path 11
    if rest.length > 0 && !containsChar rest '/' then some rest else none
  else none

/-- The finite-number timestamp and pid extraction of POST /questions. -/
def finiteNumField (fields : List (String × Json)) (key : String) : Option Int :=
  match recGet fields key with
  | some (.num (.fin n)) => some n
  | _ => none

/-- The route dispatch of the request handler in src/pkg/http/server.ts,
after the token gate has passed, in source order. -/
def handleRoutes (store : BrokerStore) (method path bodyRaw : String) :
    Except ServerFailure HttpResponse :=
  if method = "GET" && path = "/" then .ok ⟨200, .uiPage⟩
  else if method = "GET" && path = "/health" then .ok ⟨200, .health⟩
  else if method = "GET" && path = "/questions" then
    .ok ⟨200, .questionList
      (((store.listQuestions.filter (fun q => !q.answered)).map
        (fun q => ⟨q.key, q.question, q.timestamp, q.pid, q.ageSeconds⟩)))⟩
  else
    match (if method = "GET" then matchQuestionsByKey path else none) with
    | some key => .ok ⟨200, .questionState (store.readQuestionState key)⟩
    | none =>
        if method = "POST" && path = "/questions" then
          match readJsonBody bodyRaw with
          | .error e => .error e
          | .ok body =>
              let fields := asRecord body
              match normalizeStringJson (recGet fields "key"),
                  normalizeStringJson (recGet fields "question") with
              | some key, some question =>
                  .ok ⟨200, .submitOut (store.submitQuestion
                    ⟨key, question, finiteNumField fields "timestamp",
                      finiteNumField fields "pid"⟩)⟩
              | _, _ => .ok ⟨400, .errorMsg "expected \x7b key, question \x7d"⟩
        else if method = "POST" && path = "/answer" then
          match readJsonBody bodyRaw with
          | .error e => .error e
          | .ok body =>
              let fields := asRecord body
              match normalizeStringJson (recGet fields "key"),
                  recGet fields "response" with
              | some key, some (.str response) =>
                  match store.getQuestionByKey key with
                  | none => .ok ⟨404, .errorMsg ("question not found: " ++ key)⟩
                  | some _ => .ok ⟨200, .answerOut (store.answerQuestion key response)⟩
              | _, _ => .ok ⟨400, .errorMsg "expected \x7b key, response \x7d"⟩
        else if method = "POST" && path = "/cancel" then
          match readJsonBody bodyRaw with
          | .error e => .error e
          | .ok body =>
              let fields := asRecord body
              match normalizeStringJson (recGet fields "key") with
              | some key => .ok ⟨200, .cancelOut (store.cancelQuestion key)⟩
              | none => .ok ⟨400, .errorMsg "expected \x7b key \x7d"⟩
        else if method = "GET" && path = "/events" then .ok ⟨200, .eventStream⟩
        else if method = "GET" || method = "POST" then
          .ok ⟨404, .errorMsg ("not found: " ++ path)⟩
        else .ok ⟨405, .errorMsg "method not allowed"⟩

/-- The whole request handler of createHitlServer: method defaulting and
upper-casing, the optional bearer-token gate, then the route dispatch. -/
def handleRequest (store : BrokerStore) (optToken : Option String) (req : HttpRequest) :
    Except ServerFailure HttpResponse :=
  let method := jsToUpper req.method
  let expectedToken := normalizeStringOpt optToken
  let openRoute := method = "GET" && (req.path = "/" || req.path = "/health")
  if expectedToken.isSome && !openRoute && extractToken req != expectedToken then
    .ok ⟨401, .errorMsg "unauthorized"⟩
  else
    handleRoutes store method req.path req.body

/-- Modelled from the spec: toSafeKey of the Key Codec
(src/pkg/hitl/broker.ts is not present in the source tree; spec section
4.1 and the unit test expectation toSafeKey of "review step 3" equal to
"review_step_3" pin the behaviour).  Case-preserving; every character
outside letters, digits, underscore and hyphen becomes an underscore. -/
def toSafeKey (key : String) : String :=
  String.mk (key.data.map (fun c => if c.isAlphanum || c = '_' || c = '-' then c else '_'))

/-- A question marker file's JSON content, as the store reads it back. -/
structure StoredQuestion where
  key : String
  question : String
  timestamp : Int
  pid : Option Int

/-- Modelled from the spec: the contents of one handshake directory of
the File Handshake Store (src/pkg/hitl/broker.ts is not present in the
source tree): the question markers and answer markers keyed by safe key. -/
structure HitlDirState where
  questions : List (String × StoredQuestion)
  answers : List (String × String)

/-- Insert or overwrite one association (marker files are written
wholesale, last write wins). -/
def upsert (k : String) (v : α) : List (String × α) → List (String × α)
  | [] => [(k, v)]
  | (k2, v2) :: rest => if k2 = k then (k, v) :: rest else (k2, v2) :: upsert k v rest

/-- Remove one association. -/
def removeKey (k : String) : List (String × α) → List (String × α)
  | [] => []
  | (k2, v2) :: rest => if k2 = k then removeKey k rest else (k2, v2) :: removeKey k rest

/-- Modelled from the spec: getQuestionByKey of the File Handshake Store:
the question under the safe key, if its marker exists, with the derived
answered flag and age. -/
def getQuestionByKeyFile (key : String) (st : HitlDirState) (now : Int) : Option Question :=
  match List.lookup (toSafeKey key) st.questions with
  | none => none
  | some q =>
      some ⟨q.key, q.question, q.timestamp, q.pid, now - q.timestamp,
        (List.lookup (toSafeKey key) st.answers).isSome⟩

/-- Modelled from the spec: listQuestions of the File Handshake Store. -/
def listQuestionsFile (st : HitlDirState) (now : Int) : List Question :=
  st.questions.map (fun kv =>
    ⟨kv.2.key, kv.2.question, kv.2.timestamp, kv.2.pid, now - kv.2.timestamp,
      (List.lookup kv.1 st.answers).isSome⟩)

/-- Modelled from the spec: readQuestionState of the File Handshake
Store: missing without a question marker, answered when an answer marker
exists (returning its content), pending otherwise. -/
def readQuestionStateFile (key : String) (st : HitlDirState) : QuestionState :=
  match List.lookup (toSafeKey key) st.questions with
  | none => ⟨"missing", none⟩
  | some _ =>
      match List.lookup (toSafeKey key) st.answers with
      | some response => ⟨"answered", some response⟩
      | none => ⟨"pending", none⟩

/-- Modelled from the spec: answerQuestion of the File Handshake Store
writes the answer marker file and returns its path; it does not verify
that the question marker still exists. -/
def answerQuestionFile (key responseText : String) (st : HitlDirState) :
    HitlDirState × PathResult :=
  ({ st with answers := upsert (toSafeKey key) responseText st.answers },
    ⟨toSafeKey key ++ ".answer"⟩)

/-- Modelled from the spec: cancelQuestion of the File Handshake Store
deletes both markers; removed is true when at least one existed. -/
def cancelQuestionFile (key : String) (st : HitlDirState) :
    HitlDirState × CancelResult :=
  let sk := toSafeKey key
  let existed :=
    (List.lookup sk st.questions).isSome || (List.lookup sk st.answers).isSome
  ({ questions := removeKey sk st.questions, answers := removeKey sk st.answers },
    ⟨existed⟩)

/-- Modelled from the spec: submitQuestion of the File Handshake Store
overwrites the question marker (last write wins) and returns its path. -/
def submitQuestionFile (inp : SubmitInput) (st : HitlDirState) (now : Int) (pid : Int) :
    HitlDirState × PathResult :=
  ({ st with
      questions := upsert (toSafeKey inp.key)
        ⟨inp.key, inp.question, inp.timestamp.getD now, some (inp.pid.getD pid)⟩
        st.questions },
    ⟨toSafeKey inp.key ++ ".question"⟩)

/-- The request handler's store view of one directory snapshot. -/
def storeOfDir (st : HitlDirState) (now : Int) (pid : Int) : BrokerStore :=
  { listQuestions := listQuestionsFile st now
    readQuestionState := fun k => readQuestionStateFile k st
    getQuestionByKey := fun k => getQuestionByKeyFile k st now
    submitQuestion := fun inp => (submitQuestionFile inp st now pid).2
    answerQuestion := fun k r => (answerQuestionFile k r st).2
    cancelQuestion := fun k => (cancelQuestionFile k st).2 }

/-- The data-line contribution exactly as the specification words it:
the remainder after the data: marker, left-trimmed of exactly one leading
space, preserving any further whitespace. -/
def specDataContribution (rest : List Char) : List Char :=
  match rest with
  | ' ' :: tail => tail
  | _ => rest

/-- The claim-side null condition for parseRuntimeRunEvent: the kind
field of the payload record is missing, not a string, or blank after
trimming. -/
def kindMissingOrBlank (j : Json) : Prop :=
  match recGet (asRecord j) "kind" with
  | none => True
  | some (.str s) => (jsTrim s).length = 0
  | some _ => True

theorem takeLine_eq_some (cs : List Char) (l r : List Char) :
    takeLine cs = some (l, r) → cs = l ++ '\n' :: r := by
  induction cs generalizing l r with
  | nil => intro h; simp [takeLine] at h
  | cons c cs ih =>
      intro h
      by_cases hc : c = '\n'
      · subst hc
        simp [takeLine] at h
        simp [h.1, h.2]
      · simp only [takeLine, if_neg hc] at h
        cases htl : takeLine cs with
        | none => rw [htl] at h; simp at h
        | some p =>
            rw [htl] at h
            simp only [Option.some.injEq, Prod.mk.injEq] at h
            obtain ⟨h1, h2⟩ := h
            have := ih p.1 p.2 (by rw [htl])
            subst h2
            rw [← h1]
            simp [this]

theorem takeLine_rest_length (cs : List Char) (p : List Char × List Char) :
    takeLine cs = some p → p.2.length < cs.length := by
  intro h
  have := takeLine_eq_some cs p.1 p.2 (by rw [h])
  rw [this]
  simp only [List.length_append, List.length_cons]
  omega

theorem foldl_append_eq_bind {α β : Type} (l : List α) (f : α → List β) (acc : List β) :
    l.foldl (fun a x => a ++ f x) acc = acc ++ l.bind f := by
  induction l generalizing acc with
  | nil => simp
  | cons x xs ih =>
      simp only [List.foldl_cons, List.cons_bind]
      rw [ih]
      simp [List.append_assoc]

theorem diffRowEvents_eq_specRowEvents (prev : Option BrokerStateRow)
    (row : BrokerStateRow) : diffRowEvents prev row = specRowEvents prev row := by
  cases prev with
  | none =>
      cases h : row.answered <;> simp [diffRowEvents, specRowEvents, h]
  | some p =>
      cases hp : p.answered <;> cases hr : row.answered <;>
        simp [diffRowEvents, specRowEvents, hp, hr]

theorem mem_specRowEvents_key (prev : Option BrokerStateRow) (row : BrokerStateRow)
    (e : BrokerSseEvent) (he : e ∈ specRowEvents prev row) :
    brokerEventKey e = row.key := by
  cases prev with
  | none =>
      by_cases hr : row.answered = true
      · simp [specRowEvents, hr] at he
        rcases he with he | he <;> subst he <;> rfl
      · simp [specRowEvents, hr] at he
        subst he; rfl
  | some p =>
      simp only [specRowEvents, List.mem_append] at he
      rcases he with he | he
      · by_cases h1 : p.answered = false ∧ row.answered = true
        · simp only [if_pos h1, List.mem_singleton] at he
          subst he; rfl
        · simp [if_neg h1] at he
      · by_cases h2 : p.questionMtimeMs < row.questionMtimeMs
        · simp only [if_pos h2, List.mem_singleton] at he
          subst he; rfl
        · simp [if_neg h2] at he

/-- C1: on every tick of the /events loop the current broker snapshot is
diffed per safe key against the baseline: a key absent from the baseline
emits new_question, followed by answered when the new row is already
answered; a present key emits answered exactly on an
unanswered-to-answered transition and new_question exactly on a strict
questionMtimeMs increase (in that order when both fire); no other
transition emits anything, and every emitted event carries the key of
some row of the current snapshot, so a key that disappeared emits
nothing. -/
theorem C1_sse_tick_diff (previous current : List (String × BrokerStateRow)) :
    tickEvents previous current =
        current.bind (fun kv => specRowEvents (List.lookup kv.1 previous) kv.2) ∧
      (∀ row : BrokerStateRow, row.answered = false →
        diffRowEvents none row = [.newQuestion row.key]) ∧
      (∀ row : BrokerStateRow, row.answered = true →
        diffRowEvents none row = [.newQuestion row.key, .answeredEvent row.key]) ∧
      (∀ p row : BrokerStateRow, p.answered = false → row.answered = true →
        ¬ p.questionMtimeMs < row.questionMtimeMs →
        diffRowEvents (some p) row = [.answeredEvent row.key]) ∧
      (∀ p row : BrokerStateRow, (p.answered = true ∨ row.answered = false) →
        p.questionMtimeMs < row.questionMtimeMs →
        diffRowEvents (some p) row = [.newQuestion row.key]) ∧
      (∀ p row : BrokerStateRow, p.answered = false → row.answered = true →
        p.questionMtimeMs < row.questionMtimeMs →
        diffRowEvents (some p) row = [.answeredEvent row.key, .newQuestion row.key]) ∧
      (∀ p row : BrokerStateRow, (p.answered = true ∨ row.answered = false) →
        ¬ p.questionMtimeMs < row.questionMtimeMs →
        diffRowEvents (some p) row = []) ∧
      (∀ e, e ∈ tickEvents previous current →
        ∃ kv, kv ∈ current ∧ brokerEventKey e = kv.2.key) := by
  refine ⟨?_, ?_, ?_, ?_, ?_, ?_, ?_, ?_⟩
  · unfold tickEvents
    rw [foldl_append_eq_bind current
      (fun kv => diffRowEvents (List.lookup kv.1 previous) kv.2) []]
    simp [diffRowEvents_eq_specRowEvents]
  · intro row h
    simp [diffRowEvents, h]
  · intro row h
    simp [diffRowEvents, h]
  · intro p row hp hr hm
    simp [diffRowEvents, hp, hr, hm]
  · intro p row hcase hm
    rcases hcase with h | h <;> simp [diffRowEvents, h, hm]
  · intro p row hp hr hm
    simp [diffRowEvents, hp, hr, hm]
  · intro p row hcase hm
    rcases hcase with h | h <;> simp [diffRowEvents, h, hm]
  · intro e he
    unfold tickEvents at he
    rw [foldl_append_eq_bind current
      (fun kv => diffRowEvents (List.lookup kv.1 previous) kv.2) []] at he
    simp only [List.nil_append, List.mem_bind] at he
    obtain ⟨kv, hkv, hmem⟩ := he
    rw [diffRowEvents_eq_specRowEvents] at hmem
    exact ⟨kv, hkv, mem_specRowEvents_key _ _ _ hmem⟩

/-- Witness for C1 at a concrete tick: the baseline holds only key a, the
current snapshot holds only the unanswered key b, so the tick emits one
new_question for b and every emitted event carries a current row's key. -/
theorem C1_sse_tick_diff_witness :
    diffRowEvents none ⟨"b", false, 5, 0⟩ = [.newQuestion "b"] ∧
      (∃ kv, kv ∈ ([("b", (⟨"b", false, 5, 0⟩ : BrokerStateRow))] :
          List (String × BrokerStateRow)) ∧
        brokerEventKey (.newQuestion "b") = kv.2.key) :=
  ⟨(C1_sse_tick_diff [("a", ⟨"a", false, 1, 0⟩)] [("b", ⟨"b", false, 5, 0⟩)]).2.1
      ⟨"b", false, 5, 0⟩ rfl,
    (C1_sse_tick_diff [("a", ⟨"a", false, 1, 0⟩)] [("b", ⟨"b", false, 5, 0⟩)]).2.2.2.2.2.2.2
      (.newQuestion "b") (by decide)⟩

theorem recordEvent_seen_mono (runId agent m : String) (st : ChatState)
    (e : RuntimeRunEvent) (h : m ∈ st.seen) :
    m ∈ ((recordEvent runId agent st e).1).seen := by
  by_cases h1 : runIdFromEventData e ≠ some runId
  · simp [recordEvent, h1, h]
  · by_cases h2 : eventMarker e ∈ st.seen
    · simp [recordEvent, h1, h2, h]
    · simp [recordEvent, h1, h2, h]

theorem recordEvent_wrote_mem (runId agent : String) (st : ChatState)
    (e : RuntimeRunEvent) (h : (recordEvent runId agent st e).2 = true) :
    eventMarker e ∈ ((recordEvent runId agent st e).1).seen := by
  by_cases h1 : runIdFromEventData e ≠ some runId
  · simp [recordEvent, h1] at h
  · by_cases h2 : eventMarker e ∈ st.seen
    · simp [recordEvent, h1, h2] at h
    · simp [recordEvent, h1, h2]

theorem recordEvent_false_of_mem (runId agent : String) (st : ChatState)
    (e : RuntimeRunEvent) (h : eventMarker e ∈ st.seen) :
    (recordEvent runId agent st e).2 = false := by
  by_cases h1 : runIdFromEventData e ≠ some runId <;> simp [recordEvent, h1, h]

theorem markerWrites_le (runId agent m : String) :
    ∀ (es : List RuntimeRunEvent) (st : ChatState),
      markerWrites runId agent st m es ≤ (if m ∈ st.seen then 0 else 1) := by
  intro es
  induction es with
  | nil => intro st; simp [markerWrites]
  | cons e es ih =>
      intro st
      simp only [markerWrites]
      by_cases hc : m ∈ st.seen
      · rw [if_pos hc]
        have h2 := recordEvent_seen_mono runId agent m st e hc
        have hrest := ih (recordEvent runId agent st e).1
        rw [if_pos h2] at hrest
        have hfirst :
            (if (recordEvent runId agent st e).2 && (eventMarker e == m) then 1 else 0) = 0 := by
          by_cases hm : eventMarker e = m
          · have hf : (recordEvent runId agent st e).2 = false :=
              recordEvent_false_of_mem runId agent st e (by rw [hm]; exact hc)
            simp [hf]
          · have hf : (eventMarker e == m) = false := by
              simp [hm]
            simp [hf]
        omega
      · rw [if_neg hc]
        by_cases hw : (recordEvent runId agent st e).2 = true ∧ eventMarker e = m
        · have h2 : m ∈ ((recordEvent runId agent st e).1).seen := by
            have hcm := recordEvent_wrote_mem runId agent st e hw.1
            rw [hw.2] at hcm
            exact hcm
          have hrest := ih (recordEvent runId agent st e).1
          rw [if_pos h2] at hrest
          have hfirst :
              (if (recordEvent runId agent st e).2 && (eventMarker e == m) then 1 else 0) = 1 := by
            simp [hw.1, hw.2]
          omega
        · have hfirst :
            (if (recordEvent runId agent st e).2 && (eventMarker e == m) then 1 else 0) = 0 := by
            rcases not_and_or.mp hw with h | h
            · have hf : (recordEvent runId agent st e).2 = false := by
                revert h; cases (recordEvent runId agent st e).2 <;> simp
              simp [hf]
            · have hf : (eventMarker e == m) = false := by simp [h]
              simp [hf]
          have hrest := ih (recordEvent runId agent st e).1
          have hone : markerWrites runId agent (recordEvent runId agent st e).1 m es ≤ 1 := by
            refine le_trans hrest ?_
            split <;> omega
          omega

/-- C2: rendering in the runtime chat orchestrator is at-most-once per
logical event: over any delivery sequence (stream, poll fallback, or both
interleaved) starting from the initial chat state, at most one line is
written per dedup marker, where the marker is seq when present (always a
finite number after parsing) and otherwise the at, kind and message
joined by bars; in particular delivering the same seq-7 event twice
renders exactly one line. -/
theorem C2_render_at_most_once (runId agent m : String)
    (es : List RuntimeRunEvent) :
    markerWrites runId agent chatInit m es ≤ 1 ∧
      (deliverEvents "r1" "planner" chatInit
        [{ seq := some 7, «at» := "2024-05-01T00:00:00.000Z", kind := "agent.step",
           level := "info", message := "hello", serviceId := none,
           data := [("runId", Json.str "r1")] },
         { seq := some 7, «at» := "2024-05-01T00:00:00.000Z", kind := "agent.step",
           level := "info", message := "hello", serviceId := none,
           data := [("runId", Json.str "r1")] }]).out.length = 1 := by
  constructor
  · have h := markerWrites_le runId agent m es chatInit
    simpa [chatInit] using h
  · rfl

theorem takeLine_append_some (u : List Char) (p : List Char × List Char)
    (v : List Char) (h : takeLine u = some p) :
    takeLine (u ++ v) = some (p.1, p.2 ++ v) := by
  induction u generalizing p with
  | nil => simp [takeLine] at h
  | cons c cs ih =>
      by_cases hc : c = '\n'
      · subst hc
        simp only [takeLine, if_pos rfl, Option.some.injEq] at h
        cases h
        simp [takeLine]
      · simp only [takeLine, if_neg hc] at h
        cases htl : takeLine cs with
        | none => rw [htl] at h; simp at h
        | some q =>
            rw [htl] at h
            simp only [Option.some.injEq] at h
            cases h
            have hq := ih q htl
            simp only [List.cons_append, takeLine, if_neg hc, List.append_eq]
            rw [hq]

theorem drainSseGo_none (d : String → Option α) (fuel : Nat) (aux : SseAux α)
    (buf : List Char) (h : takeLine buf = none) :
    drainSseGo d fuel aux buf = (aux, buf) := by
  cases fuel with
  | zero => rfl
  | succ m => simp [drainSseGo, h]

theorem drainSseGo_fuel_mono (d : String → Option α) :
    ∀ (n : Nat) (buf : List Char) (f1 f2 : Nat) (aux : SseAux α),
      buf.length ≤ n → buf.length ≤ f1 → buf.length ≤ f2 →
      drainSseGo d f1 aux buf = drainSseGo d f2 aux buf := by
  intro n
  induction n with
  | zero =>
      intro buf f1 f2 aux hn _ _
      have hb : buf = [] := List.length_eq_zero.mp (Nat.le_zero.mp hn)
      subst hb
      rw [drainSseGo_none d f1 aux [] rfl, drainSseGo_none d f2 aux [] rfl]
  | succ n ih =>
      intro buf f1 f2 aux hn h1 h2
      cases htl : takeLine buf with
      | none => rw [drainSseGo_none d f1 aux buf htl, drainSseGo_none d f2 aux buf htl]
      | some p =>
          have hlt := takeLine_rest_length buf p htl
          cases f1 with
          | zero =>
              have : buf = [] := List.length_eq_zero.mp (Nat.le_zero.mp h1)
              subst this
              simp [takeLine] at htl
          | succ m1 =>
              cases f2 with
              | zero =>
                  have : buf = [] := List.length_eq_zero.mp (Nat.le_zero.mp h2)
                  subst this
                  simp [takeLine] at htl
              | succ m2 =>
                  simp only [drainSseGo, htl]
                  exact ih p.2 m1 m2 (handleLine d aux (stripCr p.1))
                    (by omega) (by omega) (by omega)

theorem drainSse_none (d : String → Option α) (aux : SseAux α) (buf : List Char)
    (h : takeLine buf = none) : drainSse d aux buf = (aux, buf) := by
  unfold drainSse
  exact drainSseGo_none d buf.length aux buf h

theorem drainSse_some (d : String → Option α) (aux : SseAux α) (buf : List Char)
    (p : List Char × List Char) (h : takeLine buf = some p) :
    drainSse d aux buf = drainSse d (handleLine d aux (stripCr p.1)) p.2 := by
  unfold drainSse
  have hlt := takeLine_rest_length buf p h
  cases hb : buf.length with
  | zero =>
      have : buf = [] := List.length_eq_zero.mp (Nat.le_zero.mp (Nat.le_of_eq hb))
      subst this
      simp [takeLine] at h
  | succ m =>
      simp only [drainSseGo, h]
      exact drainSseGo_fuel_mono d p.2.length p.2 m p.2.length
        (handleLine d aux (stripCr p.1)) le_rfl (by omega) le_rfl

theorem drainSse_rest_no_newline (d : String → Option α) :
    ∀ (n : Nat) (buf : List Char) (aux : SseAux α), buf.length ≤ n →
      takeLine (drainSse d aux buf).2 = none := by
  intro n
  induction n with
  | zero =>
      intro buf aux hb
      have hb0 : buf = [] := List.length_eq_zero.mp (Nat.le_zero.mp hb)
      subst hb0
      rw [drainSse_none d aux [] rfl]
      rfl
  | succ n ih =>
      intro buf aux hb
      cases htl : takeLine buf with
      | none => rw [drainSse_none d aux buf htl]; exact htl
      | some p =>
          rw [drainSse_some d aux buf p htl]
          have hlen : p.2.length ≤ n := by
            have := takeLine_rest_length buf p htl
            omega
          exact ih p.2 (handleLine d aux (stripCr p.1)) hlen

theorem drain_append (d : String → Option α) :
    ∀ (n : Nat) (u : List Char) (aux : SseAux α) (v : List Char), u.length ≤ n →
      drainSse d aux (u ++ v) =
        drainSse d (drainSse d aux u).1 ((drainSse d aux u).2 ++ v) := by
  intro n
  induction n with
  | zero =>
      intro u aux v hu
      have hu0 : u = [] := List.length_eq_zero.mp (Nat.le_zero.mp hu)
      subst hu0
      rw [drainSse_none d aux [] rfl]
  | succ n ih =>
      intro u aux v hu
      cases htl : takeLine u with
      | none => rw [drainSse_none d aux u htl]
      | some p =>
          have happ := takeLine_append_some u p v htl
          rw [drainSse_some d aux (u ++ v) (p.1, p.2 ++ v) happ]
          rw [drainSse_some d aux u p htl]
          have hlen : p.2.length ≤ n := by
            have := takeLine_rest_length u p htl
            omega
          exact ih p.2 (handleLine d aux (stripCr p.1)) v hlen

theorem feedChunk_append (d : String → Option α) (st : SseState α) (a b : List Char) :
    feedChunk d (feedChunk d st a) b = feedChunk d st (a ++ b) := by
  simp only [feedChunk]
  rw [← List.append_assoc]
  rw [drain_append d (st.buffer ++ a).length (st.buffer ++ a) st.aux b le_rfl]

theorem foldl_feedChunk_join (d : String → Option α) :
    ∀ (cs : List (List Char)) (st : SseState α), takeLine st.buffer = none →
      cs.foldl (feedChunk d) st = feedChunk d st cs.join := by
  intro cs
  induction cs with
  | nil =>
      intro st h
      simp only [List.foldl_nil, List.join_nil]
      have : feedChunk d st [] = st := by
        simp only [feedChunk, List.append_nil]
        rw [drainSse_none d st.aux st.buffer h]
      rw [this]
  | cons c cs ih =>
      intro st h
      simp only [List.foldl_cons, List.join_cons]
      have h2 : takeLine (feedChunk d st c).buffer = none := by
        simp only [feedChunk]
        exact drainSse_rest_no_newline d (st.buffer ++ c).length (st.buffer ++ c) st.aux le_rfl
      rw [ih (feedChunk d st c) h2]
      rw [feedChunk_append]

theorem runSseChunks_eq_join (d : String → Option α) (chunks : List (List Char)) :
    runSseChunks d chunks = runSseChunks d [chunks.join] := by
  unfold runSseChunks
  rw [foldl_feedChunk_join d chunks sseInit rfl]
  rfl

/-- C3: the incremental SSE parser is chunk-boundary invariant: feeding
any chunk sequence is equivalent to feeding its concatenation at once;
in particular the canonical data event split at every possible boundary
into two chunks yields exactly one parsed event with kind x, a comment
line starting with a colon yields no event, and a blank-line-terminated
payload that is malformed JSON, or valid JSON without a non-empty kind,
yields no event (the model is a total function, so no error can be
raised). -/
theorem C3_sse_chunk_invariance :
    (∀ chunks : List (List Char),
      runSseChunks decodeRuntimePayload chunks =
        runSseChunks decodeRuntimePayload [chunks.join]) ∧
      (∀ n : Nat,
        runSseChunks decodeRuntimePayload
          [("data: \x7b\"kind\":\"x\"\x7d\n\n".data).take n,
           ("data: \x7b\"kind\":\"x\"\x7d\n\n".data).drop n] =
          [{ seq := none, «at» := epochIso, kind := "x", level := "info",
             message := "x", serviceId := none, data := [] }]) ∧
      runSseChunks decodeRuntimePayload [":ping\n\n".data] = [] ∧
      runSseChunks decodeRuntimePayload ["data: \x7boops\n\n".data] = [] ∧
      runSseChunks decodeRuntimePayload ["data: \x7b\"kind\":\"  \"\x7d\n\n".data] = [] := by
  refine ⟨fun chunks => runSseChunks_eq_join decodeRuntimePayload chunks, ?_, rfl, rfl, rfl⟩
  intro n
  rw [runSseChunks_eq_join]
  have h : [("data: \x7b\"kind\":\"x\"\x7d\n\n".data).take n,
      ("data: \x7b\"kind\":\"x\"\x7d\n\n".data).drop n].join =
      "data: \x7b\"kind\":\"x\"\x7d\n\n".data := by
    simp
  rw [h]
  rfl

theorem stripCr_of_not_mem (u : List Char) (h : '\r' ∉ u) : stripCr u = u := by
  unfold stripCr
  by_cases hl : u.getLast? = some '\r'
  · exfalso
    have hx : '\r' ∈ u.getLast? := Option.mem_def.mpr hl
    obtain ⟨hne, heq⟩ := List.mem_getLast?_eq_getLast hx
    exact h (heq ▸ List.getLast_mem hne)
  · rw [if_neg hl]

theorem takeLine_line (u v : List Char) (h : '\n' ∉ u) :
    takeLine (u ++ '\n' :: v) = some (u, v) := by
  induction u with
  | nil => simp [takeLine]
  | cons c cs ih =>
      have hc : ¬c = '\n' := fun hc => h (by rw [hc]; exact List.mem_cons_self '\n' cs)
      have hcs : '\n' ∉ cs := fun hm => h (List.mem_cons_of_mem c hm)
      simp only [List.cons_append, takeLine, if_neg hc, List.append_eq]
      rw [ih hcs]

theorem handleLine_data (d : String → Option α) (aux : SseAux α) (rest : List Char) :
    handleLine d aux ('d' :: 'a' :: 't' :: 'a' :: ':' :: rest) =
      { aux with dataLines := aux.dataLines ++ [String.mk (trimStartChars rest)] } := rfl

theorem handleLine_blank (d : String → Option α) (aux : SseAux α) :
    handleLine d aux [] = flushEvent d aux := rfl

/-- C8 counterexample: the source trims the data-line remainder with
trimStart, which removes every leading whitespace character; on the line
with two spaces after the data: marker the parser contributes the
fully-trimmed remainder, not the spec's one-space-trimmed remainder. -/
theorem C8_trim_counterexample :
    runSseChunks (fun s => some s) ["data:  x\n\n".data] = ["x"] ∧
      String.mk (specDataContribution [' ', ' ', 'x']) = " x" ∧
      ("x" : String) ≠ " x" :=
  ⟨rfl, rfl, by decide⟩

/-- C8 (amended): every data: line contributes its remainder left-trimmed
of all leading whitespace (the content after that whitespace preserved
verbatim), and the accumulated data lines of one event are joined with a
single newline before decoding; observationally, two newline-free,
carriage-return-free data lines produce the single payload made of the
two trimmed remainders joined by one newline. -/
theorem C8_data_line_trimmed :
    (∀ (α : Type) (d : String → Option α) (aux : SseAux α) (rest : List Char),
      handleLine d aux ('d' :: 'a' :: 't' :: 'a' :: ':' :: rest) =
        { aux with dataLines := aux.dataLines ++ [String.mk (trimStartChars rest)] }) ∧
      (∀ r1 r2 : List Char, '\n' ∉ r1 → '\r' ∉ r1 → '\n' ∉ r2 → '\r' ∉ r2 →
        runSseChunks (fun s => some s)
          [('d' :: 'a' :: 't' :: 'a' :: ':' :: r1) ++
            '\n' :: (('d' :: 'a' :: 't' :: 'a' :: ':' :: r2) ++ '\n' :: ['\n'])] =
          [String.mk (trimStartChars r1) ++ "\n" ++ String.mk (trimStartChars r2)]) := by
  refine ⟨fun α d aux rest => handleLine_data d aux rest, ?_⟩
  intro r1 r2 h1n h1r h2n h2r
  have hu1 : '\n' ∉ ('d' :: 'a' :: 't' :: 'a' :: ':' :: r1) := by
    intro hm
    simp only [List.mem_cons] at hm
    rcases hm with h | h | h | h | h | h
    · exact absurd h (by decide)
    · exact absurd h (by decide)
    · exact absurd h (by decide)
    · exact absurd h (by decide)
    · exact absurd h (by decide)
    · exact h1n h
  have hr1 : '\r' ∉ ('d' :: 'a' :: 't' :: 'a' :: ':' :: r1) := by
    intro hm
    simp only [List.mem_cons] at hm
    rcases hm with h | h | h | h | h | h
    · exact absurd h (by decide)
    · exact absurd h (by decide)
    · exact absurd h (by decide)
    · exact absurd h (by decide)
    · exact absurd h (by decide)
    · exact h1r h
  have hu2 : '\n' ∉ ('d' :: 'a' :: 't' :: 'a' :: ':' :: r2) := by
    intro hm
    simp only [List.mem_cons] at hm
    rcases hm with h | h | h | h | h | h
    · exact absurd h (by decide)
    · exact absurd h (by decide)
    · exact absurd h (by decide)
    · exact absurd h (by decide)
    · exact absurd h (by decide)
    · exact h2n h
  have hr2 : '\r' ∉ ('d' :: 'a' :: 't' :: 'a' :: ':' :: r2) := by
    intro hm
    simp only [List.mem_cons] at hm
    rcases hm with h | h | h | h | h | h
    · exact absurd h (by decide)
    · exact absurd h (by decide)
    · exact absurd h (by decide)
    · exact absurd h (by decide)
    · exact absurd h (by decide)
    · exact h2r h
  have ht1 := takeLine_line ('d' :: 'a' :: 't' :: 'a' :: ':' :: r1)
    (('d' :: 'a' :: 't' :: 'a' :: ':' :: r2) ++ '\n' :: ['\n']) hu1
  have ht2 := takeLine_line ('d' :: 'a' :: 't' :: 'a' :: ':' :: r2) ['\n'] hu2
  unfold runSseChunks
  simp only [List.foldl_cons, List.foldl_nil]
  simp only [feedChunk, sseInit, List.nil_append]
  rw [drainSse_some _ _ _ _ ht1]
  rw [stripCr_of_not_mem _ hr1, handleLine_data]
  rw [drainSse_some _ _ _ _ ht2]
  rw [stripCr_of_not_mem _ hr2, handleLine_data]
  have ht3 : takeLine ['\n'] = some (([] : List Char), ([] : List Char)) := rfl
  rw [drainSse_some _ _ _ _ ht3]
  have hscr : stripCr ([] : List Char) = [] := rfl
  rw [hscr, handleLine_blank]
  dsimp only
  simp only [List.nil_append, List.singleton_append]
  rw [show flushEvent (fun s : String => some s)
      ⟨[String.mk (trimStartChars r1), String.mk (trimStartChars r2)], []⟩ =
      (⟨[], [String.mk (trimStartChars r1) ++ "\n" ++ String.mk (trimStartChars r2)]⟩ :
        SseAux String) from rfl]
  have ht4 : takeLine ([] : List Char) = none := rfl
  rw [drainSse_none _ _ _ ht4]
  simp [finishStream, flushEvent]

/-- Witness for C8 at two concrete data lines: the remainder with two
leading spaces is trimmed in full and the two payload lines are joined by
one newline. -/
theorem C8_data_line_trimmed_witness :
    runSseChunks (fun s => some s)
      [('d' :: 'a' :: 't' :: 'a' :: ':' :: [' ', ' ', 'a']) ++
        '\n' :: (('d' :: 'a' :: 't' :: 'a' :: ':' :: ['b']) ++ '\n' :: ['\n'])] =
      [String.mk (trimStartChars [' ', ' ', 'a']) ++ "\n" ++
        String.mk (trimStartChars ['b'])] :=
  C8_data_line_trimmed.2 [' ', ' ', 'a'] ['b'] (by decide) (by decide) (by decide) (by decide)

theorem asString_some_ne_empty (v : Option Json) (k : String) (h : asString v = some k) :
    k ≠ "" := by
  unfold asString at h
  cases v with
  | none => cases h
  | some jv =>
      cases jv with
      | str s =>
          dsimp only at h
          by_cases hl : (jsTrim s).length > 0
          · rw [if_pos hl] at h
            injection h with h
            subst h
            intro hemp
            rw [hemp] at hl
            simp at hl
          · rw [if_neg hl] at h
            cases h
      | null => cases h
      | bool b => cases h
      | num n => cases h
      | arr xs => cases h
      | obj fs => cases h

theorem kindMissingOrBlank_iff (j : Json) :
    kindMissingOrBlank j ↔ asString (recGet (asRecord j) "kind") = none := by
  unfold kindMissingOrBlank asString
  cases recGet (asRecord j) "kind" with
  | none => simp
  | some v =>
      cases v with
      | str s =>
          dsimp only
          by_cases hl : (jsTrim s).length > 0
          · rw [if_pos hl]
            simp
            omega
          · rw [if_neg hl]
            simp
            omega
      | null => simp
      | bool b => simp
      | num n => simp
      | arr xs => simp
      | obj fs => simp

/-- C10: parseRuntimeRunEvent returns null exactly when the kind field is
missing, not a string, or blank after trimming; otherwise a missing or
blank at defaults to the epoch ISO timestamp, level defaults to info,
message defaults to the kind, a seq that is not a finite number is
omitted, a data field that is not an object (JSON object or array, the
JavaScript object types) defaults to the empty map, and every parsed
event has a non-empty kind, level, message and at. -/
theorem C10_parse_event (j : Json) :
    (parseRuntimeRunEvent j = none ↔ kindMissingOrBlank j) ∧
      ∀ e, parseRuntimeRunEvent j = some e →
        e.kind ≠ "" ∧ e.level ≠ "" ∧ e.message ≠ "" ∧ e.«at» ≠ "" ∧
        (asString (recGet (asRecord j) "at") = none →
          e.«at» = "1970-01-01T00:00:00.000Z") ∧
        (asString (recGet (asRecord j) "level") = none → e.level = "info") ∧
        (asString (recGet (asRecord j) "message") = none → e.message = e.kind) ∧
        ((∀ n : Int, recGet (asRecord j) "seq" ≠ some (Json.num (JsNum.fin n))) →
          e.seq = none) ∧
        ((∀ fs, recGet (asRecord j) "data" ≠ some (Json.obj fs)) →
          (∀ xs, recGet (asRecord j) "data" ≠ some (Json.arr xs)) → e.data = []) := by
  cases hk : asString (recGet (asRecord j) "kind") with
  | none =>
      constructor
      · rw [kindMissingOrBlank_iff]
        simp [parseRuntimeRunEvent, hk]
      · intro e he
        simp [parseRuntimeRunEvent, hk] at he
  | some k =>
      constructor
      · rw [kindMissingOrBlank_iff, hk]
        simp [parseRuntimeRunEvent, hk]
      · intro e he
        simp only [parseRuntimeRunEvent, hk] at he
        injection he with he
        subst he
        refine ⟨asString_some_ne_empty _ _ hk, ?_, ?_, ?_, ?_, ?_, ?_, ?_, ?_⟩
        · cases hl : asString (recGet (asRecord j) "level") with
          | none => simp [hl]
          | some l => simp [hl]; exact asString_some_ne_empty _ _ hl
        · cases hm : asString (recGet (asRecord j) "message") with
          | none => simp [hm]; exact asString_some_ne_empty _ _ hk
          | some m => simp [hm]; exact asString_some_ne_empty _ _ hm
        · cases ha : asString (recGet (asRecord j) "at") with
          | none => simp [ha, epochIso]
          | some a => simp [ha]; exact asString_some_ne_empty _ _ ha
        · intro ha
          simp [ha, epochIso]
        · intro hl
          simp [hl]
        · intro hm
          simp [hm]
        · intro hs
          cases hq : recGet (asRecord j) "seq" with
          | none => simp [hq]
          | some v =>
              cases v with
              | num nv =>
                  cases nv with
                  | fin n => exact absurd hq (hs n)
                  | nan => simp [hq]
                  | inf => simp [hq]
                  | negInf => simp [hq]
              | null => simp [hq]
              | bool b => simp [hq]
              | str s => simp [hq]
              | arr xs => simp [hq]
              | obj fs => simp [hq]
        · intro h1 h2
          cases hq : recGet (asRecord j) "data" with
          | none => simp [hq]
          | some v =>
              cases v with
              | obj fs => exact absurd hq (h1 fs)
              | arr xs => exact absurd hq (h2 xs)
              | null => simp [hq, asRecord]
              | bool b => simp [hq, asRecord]
              | str s => simp [hq, asRecord]
              | num nv => simp [hq, asRecord]

/-- Witness for C10 at the minimal payload with only a kind field: the
parse succeeds and every default fires. -/
theorem C10_parse_event_witness :
    parseRuntimeRunEvent (Json.obj [("kind", Json.str "x")]) =
      some { seq := none, «at» := "1970-01-01T00:00:00.000Z", kind := "x",
             level := "info", message := "x", serviceId := none, data := [] } ∧
      ({ seq := none, «at» := "1970-01-01T00:00:00.000Z", kind := "x",
         level := "info", message := "x", serviceId := none,
         data := [] } : RuntimeRunEvent).kind ≠ "" ∧
      ({ seq := none, «at» := "1970-01-01T00:00:00.000Z", kind := "x",
         level := "info", message := "x", serviceId := none,
         data := [] } : RuntimeRunEvent).«at» = "1970-01-01T00:00:00.000Z" ∧
      ({ seq := none, «at» := "1970-01-01T00:00:00.000Z", kind := "x",
         level := "info", message := "x", serviceId := none,
         data := [] } : RuntimeRunEvent).seq = none ∧
      ({ seq := none, «at» := "1970-01-01T00:00:00.000Z", kind := "x",
         level := "info", message := "x", serviceId := none,
         data := [] } : RuntimeRunEvent).data = [] := by
  refine ⟨rfl, ?_, ?_, ?_, ?_⟩
  · exact ((C10_parse_event (Json.obj [("kind", Json.str "x")])).2 _ rfl).1
  · exact ((C10_parse_event (Json.obj [("kind", Json.str "x")])).2 _ rfl).2.2.2.2.1 rfl
  · exact ((C10_parse_event (Json.obj [("kind", Json.str "x")])).2 _ rfl).2.2.2.2.2.2.2.1
      (fun n hn => Option.noConfusion hn)
  · exact ((C10_parse_event (Json.obj [("kind", Json.str "x")])).2 _ rfl).2.2.2.2.2.2.2.2
      (fun fs hf => Option.noConfusion hf) (fun xs hx => Option.noConfusion hx)

theorem startsWithChars_self_append (p r : List Char) :
    startsWithChars p (p ++ r) = true := by
  induction p with
  | nil => rfl
  | cons c cs ih => simp [startsWithChars, ih]

theorem head?_dropWhile_false (p : Char → Bool) (l : List Char) (a : Char)
    (h : (l.dropWhile p).head? = some a) : p a = false := by
  induction l with
  | nil => simp [List.dropWhile] at h
  | cons c cs ih =>
      cases hc : p c with
      | true =>
          rw [List.dropWhile_cons, if_pos (by rw [hc])] at h
          exact ih h
      | false =>
          rw [List.dropWhile_cons, if_neg (by rw [hc]; exact Bool.false_ne_true)] at h
          simp at h
          rw [← h]
          exact hc

theorem dropWhile_ne_nil_of_exists (p : Char → Bool) (l : List Char)
    (h : ∃ c ∈ l, p c = false) : l.dropWhile p ≠ [] := by
  induction l with
  | nil => simp at h
  | cons c cs ih =>
      cases hc : p c with
      | false =>
          rw [List.dropWhile_cons, if_neg (by rw [hc]; exact Bool.false_ne_true)]
          exact List.cons_ne_nil c cs
      | true =>
          rw [List.dropWhile_cons, if_pos (by rw [hc])]
          refine ih ?_
          obtain ⟨x, hx, hpx⟩ := h
          rcases List.mem_cons.mp hx with rfl | hx
          · rw [hc] at hpx; cases hpx
          · exact ⟨x, hx, hpx⟩

theorem stripTrailingSlashes_no_trailing (s : String) :
    (stripTrailingSlashes s).data.getLast? ≠ some '/' := by
  unfold stripTrailingSlashes
  intro h
  rw [show (String.mk ((s.data.reverse.dropWhile (fun c => c = '/')).reverse)).data =
      (s.data.reverse.dropWhile (fun c => c = '/')).reverse from rfl] at h
  rw [List.getLast?_reverse] at h
  have := head?_dropWhile_false _ _ _ h
  simp at this

theorem stripTrailingSlashes_append (pre v : List Char)
    (h : ∃ c ∈ v, decide (c = '/') = false) :
    stripTrailingSlashes (String.mk (pre ++ v)) =
      String.mk (pre ++ (v.reverse.dropWhile (fun c => c = '/')).reverse) := by
  unfold stripTrailingSlashes
  have hne : v.reverse.dropWhile (fun c => c = '/') ≠ [] := by
    refine dropWhile_ne_nil_of_exists _ _ ?_
    obtain ⟨c, hc, hpc⟩ := h
    exact ⟨c, List.mem_reverse.mpr hc, hpc⟩
  rw [show (String.mk (pre ++ v)).data = pre ++ v from rfl]
  rw [List.reverse_append, List.dropWhile_append,
    if_neg (by rw [List.isEmpty_iff]; exact hne)]
  rw [List.reverse_append, List.reverse_reverse]

/-- C7 counterexample: the Remote Broker Client normalizer removes at
most one trailing slash, so a base URL with two trailing slashes keeps
one; moreover on the degenerate input consisting of a bare scheme, even
the Runtime Event Client normalizer strips into the scheme itself and the
result no longer starts with http:// or https://. -/
theorem C7_counterexample :
    normalizeBrokerBaseUrl "http://h//" = Except.ok "http://h/" ∧
      ("http://h/").data.getLast? = some '/' ∧
      normalizeRuntimeBaseUrl "http://" = Except.ok "http:" ∧
      jsStartsWith "http:" "http://" = false ∧
      jsStartsWith "http:" "https://" = false :=
  ⟨rfl, rfl, rfl, rfl, rfl⟩

/-- C7 (amended): for every base URL whose trimmed value is non-empty,
both normalizers prepend http:// when no http or https scheme prefix is
present (case-insensitively) and then strip trailing slashes, but they
differ: the Runtime Event Client normalizer strips the whole trailing
run of slashes, so its result never ends in a slash, while the Remote
Broker Client normalizer strips at most one trailing slash, so its
result can still end in a slash; when the scheme was prepended, the
result starts with http:// provided the trimmed value contains some
non-slash character (runtime client) or is merely non-empty (broker
client). -/
theorem C7_normalize_base_url (value : String) (h : (jsTrim value).length ≠ 0) :
    normalizeRuntimeBaseUrl value =
        .ok (stripTrailingSlashes (withScheme (jsTrim value))) ∧
      normalizeBrokerBaseUrl value =
        .ok (dropOneTrailingSlash (withScheme (jsTrim value))) ∧
      (stripTrailingSlashes (withScheme (jsTrim value))).data.getLast? ≠ some '/' ∧
      (hasHttpScheme (jsTrim value) = false →
        ((∃ c ∈ (jsTrim value).data, c ≠ '/') →
          jsStartsWith (stripTrailingSlashes ("http://" ++ jsTrim value)) "http://" = true) ∧
        ((jsTrim value).data ≠ [] →
          jsStartsWith (dropOneTrailingSlash ("http://" ++ jsTrim value)) "http://" = true)) := by
  refine ⟨?_, ?_, stripTrailingSlashes_no_trailing _, ?_⟩
  · by_cases hs : hasHttpScheme (jsTrim value) = true
    · simp [normalizeRuntimeBaseUrl, h, hs, withScheme]
    · simp [normalizeRuntimeBaseUrl, h, hs, withScheme]
  · by_cases hs : hasHttpScheme (jsTrim value) = true
    · simp [normalizeBrokerBaseUrl, h, hs, withScheme]
    · simp [normalizeBrokerBaseUrl, h, hs, withScheme]
  · intro hs
    constructor
    · intro hex
      have hex2 : ∃ c ∈ (jsTrim value).data, decide (c = '/') = false := by
        obtain ⟨c, hc, hne⟩ := hex
        exact ⟨c, hc, by simp [hne]⟩
      have heq : ("http://" ++ jsTrim value) =
          String.mk ("http://".data ++ (jsTrim value).data) := rfl
      rw [heq, stripTrailingSlashes_append _ _ hex2]
      exact startsWithChars_self_append _ _
    · intro hne
      unfold dropOneTrailingSlash
      have hdata : ("http://" ++ jsTrim value).data =
          "http://".data ++ (jsTrim value).data := rfl
      rw [hdata]
      rw [List.getLast?_append_of_ne_nil _ hne]
      by_cases hl : (jsTrim value).data.getLast? = some '/'
      · rw [if_pos hl]
        rw [List.dropLast_append_of_ne_nil _ hne]
        exact startsWithChars_self_append _ _
      · rw [if_neg hl]
        have : jsStartsWith ("http://" ++ jsTrim value) "http://" =
            startsWithChars "http://".data ("http://".data ++ (jsTrim value).data) := rfl
        rw [this]
        exact startsWithChars_self_append _ _

/-- Witness for C7 at the schemeless value h with two trailing slashes:
the runtime normalizer yields a scheme-prefixed result with no trailing
slash, and the broker normalizer still starts with the scheme. -/
theorem C7_normalize_base_url_witness :
    normalizeRuntimeBaseUrl "h//" =
        .ok (stripTrailingSlashes (withScheme (jsTrim "h//"))) ∧
      (stripTrailingSlashes (withScheme (jsTrim "h//"))).data.getLast? ≠ some '/' ∧
      jsStartsWith (stripTrailingSlashes ("http://" ++ jsTrim "h//")) "http://" = true ∧
      jsStartsWith (dropOneTrailingSlash ("http://" ++ jsTrim "h//")) "http://" = true := by
  have h := C7_normalize_base_url "h//" (by decide)
  refine ⟨h.1, h.2.2.1, ?_, ?_⟩
  · exact (h.2.2.2 (by decide)).1 (by decide)
  · exact (h.2.2.2 (by decide)).2 (by decide)

/-- C4: with a bearer token configured, every request outside GET / and
GET /health is answered 401 unless it presents, via the Authorization
Bearer header, the x-clarity-token header or the token query parameter, a
token equal to the configured one; on an exact match the request is
dispatched to the routes untouched; concretely, GET /questions without
credentials is 401 and with the Bearer header it is 200 for every store. -/
theorem C4_token_gate (store : BrokerStore) (optToken : Option String) (req : HttpRequest)
    (t : String) (ht : normalizeStringOpt optToken = some t)
    (hopen : ¬(jsToUpper req.method = "GET" ∧ (req.path = "/" ∨ req.path = "/health"))) :
    (extractToken req ≠ some t →
      handleRequest store optToken req = .ok ⟨401, .errorMsg "unauthorized"⟩) ∧
      (extractToken req = some t →
        handleRequest store optToken req =
          handleRoutes store (jsToUpper req.method) req.path req.body) ∧
      (∀ store2 : BrokerStore, handleRequest store2 (some "secret-token")
        { method := "GET", path := "/questions", authorization := none,
          xClarityToken := none, queryToken := none, body := "" } =
        .ok ⟨401, .errorMsg "unauthorized"⟩) ∧
      (∀ store2 : BrokerStore, ∃ r, handleRequest store2 (some "secret-token")
        { method := "GET", path := "/questions",
          authorization := some "Bearer secret-token",
          xClarityToken := none, queryToken := none, body := "" } = .ok r ∧
        r.status = 200) := by
  have hopenb : (decide (jsToUpper req.method = "GET") &&
      (decide (req.path = "/") || decide (req.path = "/health"))) = false := by
    by_cases h1 : jsToUpper req.method = "GET"
    · by_cases h2 : req.path = "/"
      · exact absurd ⟨h1, Or.inl h2⟩ hopen
      · by_cases h3 : req.path = "/health"
        · exact absurd ⟨h1, Or.inr h3⟩ hopen
        · simp [h1, h2, h3]
    · simp [h1]
  refine ⟨?_, ?_, ?_, ?_⟩
  · intro hne
    simp only [handleRequest, ht, hopenb]
    simp [hne]
  · intro heq
    simp only [handleRequest, ht, hopenb]
    simp [heq]
  · intro store2
    rfl
  · intro store2
    exact ⟨_, rfl, rfl⟩

/-- Witness for C4: the concrete secret-token gate on an empty directory
store denies the credential-free request and serves the Bearer one. -/
theorem C4_token_gate_witness :
    handleRequest (storeOfDir ⟨[], []⟩ 0 0) (some "secret-token")
      { method := "GET", path := "/questions", authorization := none,
        xClarityToken := none, queryToken := none, body := "" } =
      .ok ⟨401, .errorMsg "unauthorized"⟩ ∧
    ∃ r, handleRequest (storeOfDir ⟨[], []⟩ 0 0) (some "secret-token")
      { method := "GET", path := "/questions",
        authorization := some "Bearer secret-token",
        xClarityToken := none, queryToken := none, body := "" } = .ok r ∧
      r.status = 200 := by
  have h := C4_token_gate (storeOfDir ⟨[], []⟩ 0 0) (some "secret-token")
    { method := "GET", path := "/questions", authorization := none,
      xClarityToken := none, queryToken := none, body := "" } "secret-token" rfl
    (by decide)
  exact ⟨h.2.2.1 (storeOfDir ⟨[], []⟩ 0 0), h.2.2.2 (storeOfDir ⟨[], []⟩ 0 0)⟩

/-- C9 counterexample: a whitespace-only body is non-empty and is not
valid JSON, yet readJsonBody trims it first, treats it as the empty
object, and the handler does send its 400 validation response instead of
throwing. -/
theorem C9_counterexample :
    (" " : String) ≠ "" ∧ parseJson " " = none ∧
      readJsonBody " " = .ok (Json.obj []) ∧
      handleRequest (storeOfDir ⟨[], []⟩ 0 0) none
        { method := "POST", path := "/cancel", authorization := none,
          xClarityToken := none, queryToken := none, body := " " } =
        .ok ⟨400, .errorMsg "expected \x7b key \x7d"⟩ :=
  ⟨by decide, rfl, rfl, rfl⟩

/-- C9 (amended): for every POST to /questions, /answer or /cancel with
no token configured, a body that is non-empty AFTER TRIMMING and not
valid JSON makes readJsonBody throw (its JSON.parse is unguarded), the
exception escapes the handler before any route logic runs, and no
response, in particular no 400 validation response, is sent; a body that
trims to empty, so an empty or whitespace-only body, is tolerated and
treated as the empty object. -/
theorem C9_bad_json_escapes (store : BrokerStore) (optToken : Option String) (req : HttpRequest)
    (hmethod : jsToUpper req.method = "POST")
    (hpath : req.path = "/questions" ∨ req.path = "/answer" ∨ req.path = "/cancel")
    (htok : normalizeStringOpt optToken = none)
    (hbody : (jsTrim req.body).length ≠ 0)
    (hjson : parseJson (jsTrim req.body) = none) :
    readJsonBody req.body = .error (.badJson (jsTrim req.body)) ∧
      handleRequest store optToken req = .error (.badJson (jsTrim req.body)) ∧
      (∀ resp, handleRequest store optToken req ≠ .ok resp) ∧
      (∀ raw, (jsTrim raw).length = 0 → readJsonBody raw = .ok (Json.obj [])) := by
  have hread : readJsonBody req.body = .error (.badJson (jsTrim req.body)) := by
    simp [readJsonBody, hbody, hjson]
  have hmain : handleRequest store optToken req = .error (.badJson (jsTrim req.body)) := by
    simp only [handleRequest, htok]
    rcases hpath with hp | hp | hp <;>
      simp [handleRoutes, hmethod, hp, hread]
  refine ⟨hread, hmain, ?_, ?_⟩
  · intro resp hok
    rw [hmain] at hok
    cases hok
  · intro raw hr
    simp [readJsonBody, hr]

/-- Witness for C9 at a concrete malformed POST /answer body. -/
theorem C9_bad_json_escapes_witness :
    readJsonBody "notjson" = .error (.badJson (jsTrim "notjson")) ∧
      handleRequest (storeOfDir ⟨[], []⟩ 0 0) none
        { method := "POST", path := "/answer", authorization := none,
          xClarityToken := none, queryToken := none, body := "notjson" } =
        .error (.badJson (jsTrim "notjson")) := by
  have h := C9_bad_json_escapes (storeOfDir ⟨[], []⟩ 0 0) none
    { method := "POST", path := "/answer", authorization := none,
      xClarityToken := none, queryToken := none, body := "notjson" }
    rfl (Or.inr (Or.inl rfl)) rfl (by decide) rfl
  exact ⟨h.1, h.2.1⟩

theorem lookup_upsert (k : String) (v : String) (l : List (String × String)) :
    List.lookup k (upsert k v l) = some v := by
  induction l with
  | nil => simp [upsert, List.lookup]
  | cons p rest ih =>
      by_cases hp : p.1 = k
      · simp [upsert, hp, List.lookup]
      · simp only [upsert]
        rw [if_neg hp]
        have hbe : (k == p.1) = false := by
          rw [beq_eq_false_iff_ne]
          exact Ne.symm hp
        simp [List.lookup, hbe, ih]

/-- C6: POST /answer with a valid key and string response returns 404
when getQuestionByKey finds no question under the key, and otherwise 200
with the store-level answerQuestion result; and the store-level
answerQuestion (modelled from the spec, the broker module being absent
from the source tree) writes the answer marker unconditionally, without
verifying that a question marker exists. -/
theorem C6_answer_route (st : HitlDirState) (now pid : Int) (optToken : Option String)
    (req : HttpRequest) (k r : String)
    (hmethod : jsToUpper req.method = "POST") (hpath : req.path = "/answer")
    (htok : normalizeStringOpt optToken = none)
    (hbody : readJsonBody req.body =
      .ok (Json.obj [("key", Json.str k), ("response", Json.str r)]))
    (hkne : (jsTrim k).length > 0) :
    (getQuestionByKeyFile (jsTrim k) st now = none →
      handleRequest (storeOfDir st now pid) optToken req =
        .ok ⟨404, .errorMsg ("question not found: " ++ jsTrim k)⟩) ∧
      (∀ q, getQuestionByKeyFile (jsTrim k) st now = some q →
        handleRequest (storeOfDir st now pid) optToken req =
          .ok ⟨200, .answerOut (answerQuestionFile (jsTrim k) r st).2⟩) ∧
      (∀ (key resp : String) (st2 : HitlDirState),
        List.lookup (toSafeKey key) (answerQuestionFile key resp st2).1.answers =
          some resp) := by
  refine ⟨?_, ?_, ?_⟩
  · intro hq
    simp only [handleRequest, htok]
    simp [handleRoutes, hmethod, hpath, hbody, recGet, asRecord, List.lookup,
      normalizeStringJson, hkne, storeOfDir, hq]
  · intro q hq
    simp only [handleRequest, htok]
    simp [handleRoutes, hmethod, hpath, hbody, recGet, asRecord, List.lookup,
      normalizeStringJson, hkne, storeOfDir, hq]
  · intro key resp st2
    simp [answerQuestionFile, lookup_upsert]

/-- Witness for C6: answering key k1 succeeds with the marker path on a
directory that has the question, 404s on an empty directory, and the
answer marker is written even into the empty directory. -/
theorem C6_answer_route_witness :
    handleRequest (storeOfDir ⟨[("k1", ⟨"k1", "why?", 0, none⟩)], []⟩ 5 0) none
      { method := "POST", path := "/answer", authorization := none,
        xClarityToken := none, queryToken := none,
        body := "\x7b\"key\":\"k1\",\"response\":\"ok\"\x7d" } =
      .ok ⟨200, .answerOut ⟨"k1.answer"⟩⟩ ∧
    handleRequest (storeOfDir ⟨[], []⟩ 5 0) none
      { method := "POST", path := "/answer", authorization := none,
        xClarityToken := none, queryToken := none,
        body := "\x7b\"key\":\"k1\",\"response\":\"ok\"\x7d" } =
      .ok ⟨404, .errorMsg ("question not found: " ++ jsTrim "k1")⟩ ∧
    List.lookup (toSafeKey "k1") (answerQuestionFile "k1" "ok" ⟨[], []⟩).1.answers =
      some "ok" := by
  refine ⟨?_, ?_, ?_⟩
  · exact (C6_answer_route ⟨[("k1", ⟨"k1", "why?", 0, none⟩)], []⟩ 5 0 none
      { method := "POST", path := "/answer", authorization := none,
        xClarityToken := none, queryToken := none,
        body := "\x7b\"key\":\"k1\",\"response\":\"ok\"\x7d" } "k1" "ok"
      rfl rfl rfl rfl (by decide)).2.1 _ rfl
  · exact (C6_answer_route ⟨[], []⟩ 5 0 none
      { method := "POST", path := "/answer", authorization := none,
        xClarityToken := none, queryToken := none,
        body := "\x7b\"key\":\"k1\",\"response\":\"ok\"\x7d" } "k1" "ok"
      rfl rfl rfl rfl (by decide)).1 rfl
  · exact ((C6_answer_route ⟨[], []⟩ 5 0 none
      { method := "POST", path := "/answer", authorization := none,
        xClarityToken := none, queryToken := none,
        body := "\x7b\"key\":\"k1\",\"response\":\"ok\"\x7d" } "k1" "ok"
      rfl rfl rfl rfl (by decide)).2.2) "k1" "ok" ⟨[], []⟩
theorem pollLoopGo_length_le (env : Nat → PollObs) :
    ∀ (r : Nat) (hN : Bool) (idx : Nat), (pollLoopGo env r hN idx).length ≤ r := by
  intro r
  induction r with
  | zero => intro hN idx; simp [pollLoopGo]
  | succ n ih =>
      intro hN idx
      simp only [pollLoopGo]
      split
      · simp
      · simp only [List.length_cons]
        exact Nat.succ_le_succ (ih _ _)

theorem pollLoopGo_ne_nil (env : Nat → PollObs) (r : Nat) (hN : Bool) (idx : Nat)
    (h : 0 < r) : pollLoopGo env r hN idx ≠ [] := by
  cases r with
  | zero => omega
  | succ n =>
      simp only [pollLoopGo]
      exact List.cons_ne_nil _ _

theorem pollLoopGo_getD (env : Nat → PollObs) :
    ∀ (r : Nat) (hN : Bool) (idx j : Nat), j < (pollLoopGo env r hN idx).length →
      (pollLoopGo env r hN idx).getD j ⟨false, 0, none⟩ =
        ⟨decide (0 < idx + j), (env (idx + j)).emitted, (env (idx + j)).status⟩ := by
  intro r
  induction r with
  | zero => intro hN idx j h; simp [pollLoopGo] at h
  | succ n ih =>
      intro hN idx j h
      simp only [pollLoopGo] at h ⊢
      cases j with
      | zero =>
          simp
      | succ j =>
          rw [List.getD_cons_succ]
          split at h
          · simp at h
          · simp only [List.length_cons] at h
            rename_i hstop
            rw [if_neg hstop]
            have := ih (hN || decide ((env idx).emitted > 0)) (idx + 1) j (by omega)
            rw [this]
            have harith : idx + 1 + j = idx + (j + 1) := by omega
            rw [harith]

theorem termB_iff (env : Nat → PollObs) (idx : Nat) :
    ((match (env idx).status with
      | some s => isTerminalRunStatus s
      | none => false) = true) ↔ envTerminalAt env idx := by
  cases h : (env idx).status with
  | none => simp [envTerminalAt, h]
  | some s => simp [envTerminalAt, h]

theorem flag_shift (env : Nat → PollObs) (hN : Bool) (idx b : Nat) :
    ((hN || decide ((env idx).emitted > 0)) = true ∨
        ∃ k < b, (env (idx + 1 + k)).emitted > 0) ↔
      (hN = true ∨ ∃ k < b + 1, (env (idx + k)).emitted > 0) := by
  constructor
  · rintro (h | ⟨k, hk, he⟩)
    · rcases Bool.or_eq_true_iff.mp h with h | h
      · exact Or.inl h
      · refine Or.inr ⟨0, by omega, ?_⟩
        simpa using of_decide_eq_true h
    · refine Or.inr ⟨k + 1, by omega, ?_⟩
      have harith : idx + (k + 1) = idx + 1 + k := by omega
      rw [harith]; exact he
  · rintro (h | ⟨k, hk, he⟩)
    · exact Or.inl (by simp [h])
    · cases k with
      | zero =>
          left
          have hd : decide ((env idx).emitted > 0) = true := by
            simp only [Nat.add_zero] at he
            exact decide_eq_true he
          simp [hd]
      | succ k =>
          refine Or.inr ⟨k, by omega, ?_⟩
          have harith : idx + 1 + k = idx + (k + 1) := by omega
          rw [harith]; exact he

theorem pollLoopGo_stop_facts (env : Nat → PollObs) :
    ∀ (r : Nat) (hN : Bool) (idx : Nat),
      (∀ j, j + 1 < (pollLoopGo env r hN idx).length →
        ¬ envTerminalAt env (idx + j) ∧
        ¬((env (idx + j)).emitted = 0 ∧
          (hN = true ∨ ∃ k < j, (env (idx + k)).emitted > 0))) ∧
      ((pollLoopGo env r hN idx).length < r →
        pollLoopGo env r hN idx ≠ [] ∧
        (envTerminalAt env (idx + ((pollLoopGo env r hN idx).length - 1)) ∨
          ((env (idx + ((pollLoopGo env r hN idx).length - 1))).emitted = 0 ∧
            (hN = true ∨ ∃ k < (pollLoopGo env r hN idx).length - 1,
              (env (idx + k)).emitted > 0)))) := by
  intro r
  induction r with
  | zero =>
      intro hN idx
      constructor
      · intro j hj; simp [pollLoopGo] at hj
      · intro hlen; simp [pollLoopGo] at hlen
  | succ n ih =>
      intro hN idx
      by_cases hstop : ((match (env idx).status with
          | some s => isTerminalRunStatus s
          | none => false) ||
          ((hN || decide ((env idx).emitted > 0)) && ((env idx).emitted == 0))) = true
      · have heq : pollLoopGo env (n + 1) hN idx =
            [⟨decide (0 < idx), (env idx).emitted, (env idx).status⟩] := by
          simp only [pollLoopGo]
          rw [if_pos hstop]
        constructor
        · intro j hj
          rw [heq] at hj
          simp at hj
        · intro _
          rw [heq]
          refine ⟨List.cons_ne_nil _ _, ?_⟩
          simp only [List.length_cons, List.length_nil, Nat.zero_add, Nat.sub_self,
            Nat.add_zero]
          rcases Bool.or_eq_true_iff.mp hstop with hterm | hflag
          · exact Or.inl ((termB_iff env idx).mp hterm)
          · obtain ⟨h1, h2⟩ := Bool.and_eq_true_iff.mp hflag
            have hem : (env idx).emitted = 0 := by simpa using h2
            refine Or.inr ⟨hem, Or.inl ?_⟩
            rcases Bool.or_eq_true_iff.mp h1 with h | h
            · exact h
            · exfalso
              have := of_decide_eq_true h
              omega
      · have hC : ((match (env idx).status with
            | some s => isTerminalRunStatus s
            | none => false) ||
            ((hN || decide ((env idx).emitted > 0)) && ((env idx).emitted == 0))) = false := by
          revert hstop
          cases ((match (env idx).status with
            | some s => isTerminalRunStatus s
            | none => false) ||
            ((hN || decide ((env idx).emitted > 0)) && ((env idx).emitted == 0))) <;> simp
        obtain ⟨hterm, hflag⟩ := Bool.or_eq_false_iff.mp hC
        have heq : pollLoopGo env (n + 1) hN idx =
            ⟨decide (0 < idx), (env idx).emitted, (env idx).status⟩ ::
              pollLoopGo env n (hN || decide ((env idx).emitted > 0)) (idx + 1) := by
          simp only [pollLoopGo]
          rw [if_neg hstop]
        have IH := ih (hN || decide ((env idx).emitted > 0)) (idx + 1)
        constructor
        · intro j hj
          rw [heq] at hj
          simp only [List.length_cons] at hj
          cases j with
          | zero =>
              simp only [Nat.add_zero]
              constructor
              · intro ht
                rw [(termB_iff env idx).mpr ht] at hterm
                cases hterm
              · rintro ⟨hem, hor⟩
                rcases hor with hhn | ⟨k, hk, _⟩
                · have : ((hN || decide ((env idx).emitted > 0)) &&
                      ((env idx).emitted == 0)) = true := by
                    simp [hhn, hem]
                  rw [this] at hflag
                  cases hflag
                · omega
          | succ j =>
              have hres := (IH.1 j (by omega))
              have harith : idx + 1 + j = idx + (j + 1) := by omega
              rw [harith] at hres
              refine ⟨hres.1, ?_⟩
              rintro ⟨hem, hor⟩
              exact hres.2 ⟨hem, (flag_shift env hN idx j).mpr hor⟩
        · intro hlen
          rw [heq]
          refine ⟨List.cons_ne_nil _ _, ?_⟩
          rw [heq] at hlen
          simp only [List.length_cons] at hlen ⊢
          have hrlen : (pollLoopGo env n (hN || decide ((env idx).emitted > 0))
              (idx + 1)).length < n := by omega
          have hpos : 0 < n := by omega
          have hne := pollLoopGo_ne_nil env n (hN || decide ((env idx).emitted > 0))
            (idx + 1) hpos
          have hlenpos : 0 < (pollLoopGo env n (hN || decide ((env idx).emitted > 0))
              (idx + 1)).length := List.length_pos.mpr hne
          have hres := (IH.2 hrlen).2
          have harith : idx + 1 + ((pollLoopGo env n (hN || decide ((env idx).emitted > 0))
              (idx + 1)).length - 1) =
              idx + ((pollLoopGo env n (hN || decide ((env idx).emitted > 0))
                (idx + 1)).length + 1 - 1) := by omega
          rw [harith] at hres
          have hbound : (pollLoopGo env n (hN || decide ((env idx).emitted > 0))
              (idx + 1)).length - 1 + 1 =
              (pollLoopGo env n (hN || decide ((env idx).emitted > 0))
                (idx + 1)).length + 1 - 1 := by omega
          rcases hres with ht | ⟨hem, hor⟩
          · exact Or.inl ht
          · refine Or.inr ⟨hem, ?_⟩
            have := (flag_shift env hN idx
              ((pollLoopGo env n (hN || decide ((env idx).emitted > 0))
                (idx + 1)).length - 1)).mp hor
            rw [hbound] at this
            exact this

/-- C5: the post-submit fallback poll loop performs at most 6 attempts
and at least one; each recorded attempt i polls the environment at index
i and sleeps one poll interval exactly when i is positive; the loop never
continues past an attempt satisfying the stop condition, and whenever it
ends before the 6th attempt the last attempt satisfies it: a terminal run
status (completed, failed or cancelled after trimming and lower-casing)
or zero new events after some earlier attempt of this loop emitted
events. -/
theorem C5_fallback_poll_loop (env : Nat → PollObs) :
    (pollAfterSubmit env).length ≤ 6 ∧
      pollAfterSubmit env ≠ [] ∧
      (∀ i, i < (pollAfterSubmit env).length →
        (pollAfterSubmit env).getD i ⟨false, 0, none⟩ =
          ⟨decide (0 < i), (env i).emitted, (env i).status⟩) ∧
      (∀ i, i + 1 < (pollAfterSubmit env).length → ¬ envStop env i) ∧
      ((pollAfterSubmit env).length < 6 →
        envStop env ((pollAfterSubmit env).length - 1)) ∧
      isTerminalRunStatus " Completed" = true ∧
      isTerminalRunStatus "FAILED" = true ∧
      isTerminalRunStatus "cancelled" = true ∧
      isTerminalRunStatus "running" = false := by
  have hfacts := pollLoopGo_stop_facts env 6 false 0
  refine ⟨pollLoopGo_length_le env 6 false 0,
    pollLoopGo_ne_nil env 6 false 0 (by omega), ?_, ?_, ?_, rfl, rfl, rfl, rfl⟩
  · intro i h
    have hres := pollLoopGo_getD env 6 false 0 i h
    simpa using hres
  · intro i h
    have hres := hfacts.1 i h
    simp only [Nat.zero_add] at hres
    intro hstop
    rcases hstop with ht | ⟨hem, hex⟩
    · exact hres.1 ht
    · exact hres.2 ⟨hem, Or.inr hex⟩
  · intro h
    have hres := (hfacts.2 h).2
    simp only [Nat.zero_add] at hres
    rcases hres with ht | ⟨hem, hor⟩
    · exact Or.inl ht
    · rcases hor with hfalse | hex
      · cases hfalse
      · exact Or.inr ⟨hem, hex⟩

/-- Witness for C5: an environment emitting two events on the first
attempt and none afterwards stops the loop at the second attempt, which
slept first and drained. -/
theorem C5_fallback_poll_loop_witness :
    (pollAfterSubmit (fun i => if i = 0 then (⟨2, none⟩ : PollObs)
        else ⟨0, none⟩)).getD 1 ⟨false, 0, none⟩ = ⟨true, 0, none⟩ ∧
      envStop (fun i => if i = 0 then (⟨2, none⟩ : PollObs) else ⟨0, none⟩) 1 := by
  have h := C5_fallback_poll_loop
    (fun i => if i = 0 then (⟨2, none⟩ : PollObs) else ⟨0, none⟩)
  exact ⟨h.2.2.1 1 (by decide), h.2.2.2.2.1 (by decide)⟩
